import Mathlib

/-!
The task runtime of co_await-all-the-things, in its two variants.

Shallow embedding of `task-accu.cpp` (namespace `TaskAccu`) and of
`task-using-std.cpp` (namespace `TaskUsingStd`).

A coroutine body is a tree of the statements the sources use: output to
`std::cout`, `co_await` of a plain value, of an `async_read`, of a nested task,
`throw`, and `co_return`.  The code the compiler generates around a body
(initial suspension, the await protocol `await_ready` / `await_suspend` /
`await_resume`, the implicit `catch (...)` calling `unhandled_exception`, final
suspension) is the function `step`, which `run` iterates with fuel; every
member function of the sources is a definition of its own with the source's
name, and `step` calls them where the generated code does.

The state is explicit: the coroutine frames, numbered in the order they are
created, the `io` context, the chunks written to `std::cout`, and a trace of
the calls the statements count (`submit`, the call of a callback in
`complete`, the transfer at `final_suspend`).  Awaiter objects of `async_read`
are numbered in the order they are created, so that two callbacks that capture
different awaiters are different values.

Values are typed: `int` (32 bits), `long long` (64 bits) and `std::string`,
and `return_value` converts what is returned to the result type of the task,
as the assignment to `std::optional<V>` does.

Not modelled: the `track` tracer and the `operator new` size output, the
destruction of frames, and the compile-time test `is_awaiter` (a body says by
its constructor whether a `co_await` operand is an awaiter).  Bodies contain no
`try` block (none of the sources' coroutines has one).
-/

namespace TaskAccu

/-- Ways an operation can end without returning normally. -/
inductive Fault where
  /-- a C++ exception leaves the call; `what` is `ex.what()` -/
  | exception (what : String)
  /-- Dereference `*v` on an empty `std::optional` in `base<V>::value` -/
  | empty_optional
  /-- Call `resume()` of a coroutine suspended at its final suspend point -/
  | resume_final
  /-- a handle or pointer that designates no frame -/
  | bad_handle
  /-- the lambda of `async_read::await_suspend` runs after its awaiter is gone -/
  | dangling_awaiter
  /-- Use of `co_return v` in a `task<void>`, or `co_return;` in a `task<R>` -/
  | ill_formed
  /-- the model ran out of fuel -/
  | out_of_fuel
  deriving DecidableEq, Repr

/-- The types of the values in the model: `int`, `long long`, `std::string`. -/
inductive VTy where
  | int
  | long_long
  | string
  deriving DecidableEq, Repr

/-- Values produced by `co_await` and `co_return`: `int n` is the `int` and
`long_long n` the `long long` of value `n`, `unit` stands for `void`. -/
inductive Val where
  | unit
  | int (n : Int)
  | long_long (n : Int)
  | str (s : String)
  deriving DecidableEq, Repr

/-- Conversion of an integer to `int`: the value congruent modulo `2^32`. -/
def to_int (n : Int) : Int := (n + 2147483648) % 4294967296 - 2147483648

/-- Conversion of an integer to `long long`: the value congruent modulo `2^64`. -/
def to_long_long (n : Int) : Int :=
  (n + 9223372036854775808) % 18446744073709551616 - 9223372036854775808

/-- The conversion of `r` to `V` that the assignment `v = r` to a
`std::optional<V>` performs; without a conversion the program is ill-formed. -/
def convert : VTy → Val → Except Fault Val
  | .int, .int n => .ok (.int (to_int n))
  | .int, .long_long n => .ok (.int (to_int n))
  | .long_long, .int n => .ok (.long_long (to_long_long n))
  | .long_long, .long_long n => .ok (.long_long (to_long_long n))
  | .string, .str s => .ok (.str s)
  | _, _ => .error .ill_formed

/-- Text that `std::cout << v` writes. -/
def Val.show : Val → String
  | .unit => ""
  | .int n => toString n
  | .long_long n => toString n
  | .str s => s

/-- A `std::coroutine_handle<>`: `std::noop_coroutine()` or the frame number `id`. -/
inductive Handle where
  | noop
  | coro (id : Nat)
  deriving DecidableEq, Repr

/-- The template argument `R` of `task<R>`: `void` selects `base<void>`,
`value V` selects `base<V>`. -/
inductive RTy where
  | void
  | value (V : VTy)
  deriving DecidableEq, Repr

/-- Coroutine bodies. -/
inductive Body where
  /-- Statement `co_return v;` -/
  | co_return (v : Val)
  /-- Statement `co_return;` or flowing off the end of a `task<>` body -/
  | co_return_void
  /-- Statement `throw std::runtime_error(what);` -/
  | throw (what : String)
  /-- Statement `std::cout << s;` -/
  | print (s : String) (k : Body)
  /-- Expression `co_await v` where `v` is not an awaiter -/
  | await_value (v : Val) (k : Val → Body)
  /-- Expression `co_await async_read{c, fd}` -/
  | await_read (fd : Int) (k : String → Body)
  /-- Expression `co_await child(c)` where `child` is a coroutine returning `task<R>` -/
  | await_task (R : RTy) (child : Body) (k : Val → Body)

/-- The struct `value_awaiter<V>`. -/
structure value_awaiter where
  value : Val
  deriving DecidableEq, Repr

/-- Member `value_awaiter::await_ready`. -/
@[simp]
def value_awaiter.await_ready (_ : value_awaiter) : Bool := true

/-- Member `value_awaiter::await_resume`. -/
def value_awaiter.await_resume (a : value_awaiter) : Val := a.value

/-- The overload of `promise_type::await_transform` for non-awaiters. -/
def await_transform (v : Val) : value_awaiter := ⟨v⟩

/-- The struct `task<R>::promise_type` with the member `v` of `base<R>`
(never set when `R` is `void`, where `base<void>` has no such member). -/
structure promise_type where
  v : Option Val := none
  error : Option String := none
  continuation : Handle := Handle.noop
  deriving DecidableEq, Repr

/-- Member `base<V>::return_value`: `v = r` stores `r` converted to `V`. -/
def promise_type.return_value (V : VTy) (p : promise_type) (r : Val) :
    Except Fault promise_type :=
  match convert V r with
  | .ok x => .ok { p with v := some x }
  | .error e => .error e

/-- Member `base<void>::return_void`. -/
def promise_type.return_void (p : promise_type) : promise_type := p

/-- Member `promise_type::unhandled_exception`; `what` is the exception in flight. -/
def promise_type.unhandled_exception (p : promise_type) (what : String) : promise_type :=
  { p with error := some what }

/-- Members `base<V>::value` and `base<void>::value`. -/
def base_value (R : RTy) (p : promise_type) : Except Fault Val :=
  match R with
  | .void => .ok .unit
  | .value _ =>
    match p.v with
    | some x => .ok x
    | none => .error .empty_optional

/-- Member `promise_type::value`. -/
def promise_type.value (R : RTy) (p : promise_type) : Except Fault Val :=
  match p.error with
  | some what => .error (.exception what)
  | none => base_value R p

/-- Member `final_awaiter::await_suspend`. -/
def final_awaiter.await_suspend (promise : promise_type) : Handle :=
  promise.continuation

/-- The lambda that `async_read::await_suspend` submits: it captures `this`
(the awaiter object, numbered) and `h` (the frame that awaits). -/
structure Callback where
  this : Nat
  h : Nat
  deriving DecidableEq, Repr

/-- The struct `async_read` without its reference to the context; `id`
numbers the awaiter objects in the order they are created. -/
structure async_read where
  id : Nat
  fd : Int
  value : String := ""
  deriving DecidableEq, Repr

/-- Member `async_read::await_ready`. -/
@[simp]
def async_read.await_ready (_ : async_read) : Bool := false

/-- Member `async_read::await_resume`. -/
def async_read.await_resume (a : async_read) : String := a.value

/-- Where a suspended frame resumes. -/
inductive Point where
  /-- at `initial_suspend`, before any statement of the body -/
  | initial (body : Body)
  /-- in `co_await async_read`: the awaiter object and the rest of the body -/
  | read (aw : async_read) (k : String → Body)
  /-- in `co_await` of a lifted value (where a `value_awaiter` not ready would
  suspend; `await_ready` is always true, so no frame is ever suspended here) -/
  | value (a : value_awaiter) (k : Val → Body)
  /-- in `co_await` of the task whose frame is `child` -/
  | task (child : Nat) (k : Val → Body)
  /-- at `final_suspend` -/
  | final

/-- A coroutine frame of a `task<R>`. -/
structure Frame where
  R : RTy
  promise : promise_type
  point : Point

/-- Calls recorded for the statements about how often something is called. -/
inductive Event where
  /-- Call `io::submit(fd, cb)` -/
  | submit (fd : Int) (cb : Callback)
  /-- Call `fun(value)` in `io::complete(fd, value)` -/
  | invoke (fd : Int) (cb : Callback) (value : String)
  /-- Call `final_awaiter::await_suspend` of frame `id` returned `target` -/
  | final_transfer (id : Nat) (target : Handle)
  deriving DecidableEq, Repr

/-- The struct `io`: `outstanding` as an association list. -/
structure io where
  outstanding : List (Int × Callback) := []
  deriving DecidableEq, Repr

/-- Lookup `outstanding.find(fd)`. -/
def io.find (c : io) (fd : Int) : Option Callback :=
  (c.outstanding.find? (fun e => e.1 == fd)).map (fun e => e.2)

/-- Removal `outstanding.erase(it)` for the entry of `fd`. -/
def io.erase (c : io) (fd : Int) : io :=
  { outstanding := c.outstanding.filter (fun e => !(e.1 == fd)) }

/-- Member `io::submit`: `outstanding[fd] = fun` inserts or overwrites. -/
def io.submit (c : io) (fd : Int) (cb : Callback) : io :=
  { outstanding := (fd, cb) :: (c.erase fd).outstanding }

/-- Whole program state: frames by number, the one `io` context, `std::cout`
as the list of chunks written, the recorded calls, the next awaiter number. -/
structure Machine where
  frames : List Frame := []
  context : io := {}
  out : List String := []
  trace : List Event := []
  next_awaiter : Nat := 0

/-- Replace frame `id`. -/
def Machine.setFrame (m : Machine) (id : Nat) (f : Frame) : Machine :=
  { m with frames := m.frames.set id f }

/-- Calling a coroutine function: the frame is created with a fresh promise
(`continuation` the no-op handle, `error` empty) and suspends at
`initial_suspend` (`std::suspend_always`); the new frame number is returned. -/
def Machine.construct (m : Machine) (R : RTy) (body : Body) : Machine × Nat :=
  ({ m with frames := m.frames ++ [⟨R, {}, .initial body⟩] }, m.frames.length)

/-- Member `nested_awaiter::await_ready`. -/
@[simp]
def nested_awaiter.await_ready : Bool := false

/-- Member `nested_awaiter::await_suspend` of the awaiter whose `promise` is
that of frame `child`; returns the handle control is transferred to. -/
def nested_awaiter.await_suspend (m : Machine) (child : Nat) (continuation : Handle) :
    Except Fault (Machine × Handle) :=
  match m.frames[child]? with
  | none => .error .bad_handle
  | some c =>
    .ok (m.setFrame child { c with promise := { c.promise with continuation := continuation } },
         .coro child)

/-- Member `nested_awaiter::await_resume`. -/
def nested_awaiter.await_resume (m : Machine) (child : Nat) : Except Fault Val :=
  match m.frames[child]? with
  | none => .error .bad_handle
  | some c => c.promise.value c.R

/-- Member `async_read::await_suspend` called with the handle of frame `h`. -/
def async_read.await_suspend (m : Machine) (a : async_read) (h : Nat) : Machine :=
  { m with
    context := m.context.submit a.fd ⟨a.id, h⟩
    trace := m.trace ++ [.submit a.fd ⟨a.id, h⟩] }

/-- Frame `id` reaches `final_suspend` with promise `p`: the frame is suspended
there and `final_awaiter::await_suspend` names the handle to transfer to. -/
def final_suspend (m : Machine) (id : Nat) (f : Frame) (p : promise_type) : Machine × Handle :=
  let h := final_awaiter.await_suspend p
  let m1 := m.setFrame id { f with promise := p, point := .final }
  ({ m1 with trace := m1.trace ++ [.final_transfer id h] }, h)

/-- What runs next: `h.resume()` or the rest `b` of the body of frame `id`. -/
inductive Ctl where
  | resume (h : Handle)
  | body (id : Nat) (b : Body)

/-- Frame `id` leaves `co_await` of the task in frame `child`:
`nested_awaiter::await_resume` gives the value the body goes on with, or
rethrows, and the exception leaves the body (no body has a `try` block). -/
def resume_from_task (m : Machine) (id child : Nat) (k : Val → Body) :
    Except Fault (Machine × Option Ctl) :=
  match nested_awaiter.await_resume m child with
  | .ok v => .ok (m, some (.body id (k v)))
  | .error (.exception what) => .ok (m, some (.body id (.throw what)))
  | .error e => .error e

/-- One stretch of execution: the new state, and what runs next (`none` when
control returns to the caller of the outermost `resume()`).  A `co_await`
asks `await_ready`, and suspends and calls `await_suspend` when it is false;
`await_resume` gives the value of the expression. -/
def step (m : Machine) : Ctl → Except Fault (Machine × Option Ctl)
  | .resume .noop => .ok (m, none)
  | .resume (.coro id) =>
    match m.frames[id]? with
    | none => .error .bad_handle
    | some f =>
      match f.point with
      | .initial b => .ok (m, some (.body id b))
      | .read aw k => .ok (m, some (.body id (k aw.await_resume)))
      | .value a k => .ok (m, some (.body id (k a.await_resume)))
      | .task child k => resume_from_task m id child k
      | .final => .error .resume_final
  | .body id b =>
    match m.frames[id]? with
    | none => .error .bad_handle
    | some f =>
      match b with
      | .print s k => .ok ({ m with out := m.out ++ [s] }, some (.body id k))
      | .await_value v k =>
        let a := await_transform v
        if a.await_ready then .ok (m, some (.body id (k a.await_resume)))
        else .ok (m.setFrame id { f with point := .value a k }, none)
      | .await_read fd k =>
        let a : async_read := { id := m.next_awaiter, fd := fd }
        let m1 := { m with next_awaiter := m.next_awaiter + 1 }
        if a.await_ready then .ok (m1, some (.body id (k a.await_resume)))
        else
          let m2 := m1.setFrame id { f with point := .read a k }
          .ok (async_read.await_suspend m2 a id, none)
      | .await_task R child k =>
        let (m1, c) := m.construct R child
        if nested_awaiter.await_ready then resume_from_task m1 id c k
        else
          let m2 := m1.setFrame id { f with point := .task c k }
          match nested_awaiter.await_suspend m2 c (.coro id) with
          | .error e => .error e
          | .ok (m3, h) => .ok (m3, some (.resume h))
      | .co_return v =>
        match f.R with
        | .void => .error .ill_formed
        | .value V =>
          match f.promise.return_value V v with
          | .error e => .error e
          | .ok p =>
            let (m1, h) := final_suspend m id f p
            .ok (m1, some (.resume h))
      | .co_return_void =>
        match f.R with
        | .value _ => .error .ill_formed
        | .void =>
          let (m1, h) := final_suspend m id f f.promise.return_void
          .ok (m1, some (.resume h))
      | .throw what =>
        let (m1, h) := final_suspend m id f (f.promise.unhandled_exception what)
        .ok (m1, some (.resume h))

/-- Runs until control returns to the caller of the outermost `resume()`. -/
def run : Nat → Machine → Ctl → Except Fault Machine
  | 0, _, _ => .error .out_of_fuel
  | n + 1, m, c =>
    match step m c with
    | .error e => .error e
    | .ok (m1, none) => .ok m1
    | .ok (m1, some c1) => run n m1 c1

/-- Member `task::start`. -/
def task.start (fuel : Nat) (m : Machine) (t : Nat) : Except Fault Machine :=
  run fuel m (.resume (.coro t))

/-- Member `task::value`. -/
def task.value (m : Machine) (t : Nat) : Except Fault Val :=
  match m.frames[t]? with
  | none => .error .bad_handle
  | some f => f.promise.value f.R

/-- The lambda of `async_read::await_suspend` called with `line`. -/
def Callback.call (fuel : Nat) (m : Machine) (cb : Callback) (line : String) :
    Except Fault Machine :=
  match m.frames[cb.h]? with
  | none => .error .bad_handle
  | some f =>
    match f.point with
    | .read aw k =>
      if aw.id = cb.this then
        run fuel (m.setFrame cb.h { f with point := .read { aw with value := line } k })
          (.resume (.coro cb.h))
      else .error .dangling_awaiter
    | _ => .error .dangling_awaiter

/-- Member `io::complete`. -/
def io.complete (fuel : Nat) (m : Machine) (fd : Int) (value : String) : Except Fault Machine :=
  match m.context.find fd with
  | none => .ok m
  | some cb =>
    let m1 := { m with context := m.context.erase fd
                       trace := m.trace ++ [.invoke fd cb value] }
    cb.call fuel m1 value

/-- The coroutine `g`. -/
def g : Body := .await_read 1 (fun s => .co_return (.str s))

/-- The coroutine `e`. -/
def e : Body := .throw "exception from task"

/-- The function `to_be_made_async`. -/
def to_be_made_async : Int := 17

/-- The coroutine `f`. -/
def f : Body :=
  .print "value=" <| .await_value (.int to_be_made_async) fun v =>
  .print v.show <| .print "\n" <|
  .print "awaiter=" <| .await_read 1 fun s =>
  .print s <| .print "\n" <|
  .print "task=" <| .await_task (.value .string) g fun v =>
  .print v.show <| .print "\n" <|
  .await_task .void e fun _ =>
  .print "f end\n" <|
  .co_return_void

/-- The function `main`: the chunks written to `std::cout`. -/
def main (fuel : Nat) : Except Fault (List String) :=
  let (m0, t) := ({} : Machine).construct .void f
  let r : Except Fault Machine := do
    let m1 ← task.start fuel m0 t
    let m2 ← io.complete fuel m1 1 "first line"
    let m3 ← io.complete fuel m2 1 "second line"
    match task.value m3 t with
    | .ok _ => pure m3
    | .error (.exception what) => pure { m3 with out := m3.out ++ ["ERROR: ", what, "\n"] }
    | .error x => throw x
  r.map (fun m => m.out)

/-- Whether a frame is suspended at `final_suspend`, that is, completed. -/
def Point.is_final : Point → Bool
  | .final => true
  | _ => false

/-- What `main` does between suspensions. -/
inductive Op where
  /-- call a coroutine function returning `task<R>` -/
  | construct (R : RTy) (body : Body)
  /-- Call `t.start()` -/
  | start (t : Nat)
  /-- Call `context.complete(fd, value)` -/
  | complete (fd : Int) (value : String)

/-- A sequence of driver calls, each given `fuel`. -/
def drive (fuel : Nat) : Machine → List Op → Except Fault Machine
  | m, [] => .ok m
  | m, .construct R body :: ops => drive fuel (m.construct R body).1 ops
  | m, .start t :: ops =>
    match task.start fuel m t with
    | .ok m1 => drive fuel m1 ops
    | .error e => .error e
  | m, .complete fd value :: ops =>
    match io.complete fuel m fd value with
    | .ok m1 => drive fuel m1 ops
    | .error e => .error e

/-- The registry holds one entry per handle at most, the awaiter of every
entry was created before `next_awaiter`, and no two entries have the same
awaiter. -/
def Machine.registry_ok (m : Machine) : Prop :=
  (m.context.outstanding.map Prod.fst).Nodup ∧
  (∀ e ∈ m.context.outstanding, e.2.this < m.next_awaiter) ∧
  (m.context.outstanding.map (fun e => e.2.this)).Nodup

/-- Callback `old` is not registered any more and was not called after the
calls `t0`. -/
def Machine.retired (m : Machine) (old : Callback) (t0 : List Event) : Prop :=
  old.this < m.next_awaiter ∧
  (∀ e ∈ m.context.outstanding, e.2 ≠ old) ∧
  ∃ s, m.trace = t0 ++ s ∧ ∀ fd v, Event.invoke fd old v ∉ s

/-- Input: a task that awaits two reads on handle 1 and returns the
concatenation. -/
def two_reads : Body :=
  .await_read 1 fun a => .await_read 1 fun b => .co_return (.str (a ++ b))

/-- Input: a task that awaits the task `g` and returns its value. -/
def outer : Body :=
  .await_task (.value .string) g fun v => .co_return v

/-- Input: a task that awaits `n` reads on `fd` one after another, writes each
string to `std::cout` as it arrives and returns the concatenation (after
`acc`). -/
def read_all (fd : Int) : Nat → String → Body
  | 0, acc => .co_return (.str acc)
  | n + 1, acc => .await_read fd fun s => .print s (read_all fd n (acc ++ s))

/-- The driver calls `complete(fd, s)` for each `s` of `ss` in turn. -/
def complete_all (fuel : Nat) (fd : Int) : Machine → List String → Except Fault Machine
  | m, [] => .ok m
  | m, s :: ss =>
    match io.complete fuel m fd s with
    | .ok m1 => complete_all fuel fd m1 ss
    | .error e => .error e

/-- The calls of callbacks recorded in a trace, oldest first: the number of the
awaiter whose callback was called, and the string it was called with. -/
def deliveries (t : List Event) : List (Nat × String) :=
  t.filterMap fun e =>
    match e with
    | .invoke _ cb v => some (cb.this, v)
    | _ => none

/-- The state in which the only frame runs `read_all` and is suspended in the
read of awaiter `a`, with `n` more reads to follow. -/
def reading (fd : Int) (a n : Nat) (acc buf : String) (o : List String) (t : List Event) :
    Machine :=
  { frames := [⟨.value .string, {}, .read { id := a, fd := fd, value := buf }
      (fun s => .print s (read_all fd n (acc ++ s)))⟩]
    context := { outstanding := [(fd, ⟨a, 0⟩)] }
    out := o
    trace := t
    next_awaiter := a + 1 }

end TaskAccu


namespace TaskUsingStd

/-- A `std::coroutine_handle<>`: `std::noop_coroutine()` or the frame number `id`. -/
inductive Handle where
  | noop
  | coro (id : Nat)
  deriving DecidableEq, Repr

/-- Exceptions: the `std::runtime_error` a body throws, and the
`std::bad_function_call` of calling an empty `std::function`. -/
inductive Exn where
  | runtime_error (what : String)
  | bad_function_call
  deriving DecidableEq, Repr

/-- Ways an operation can end without returning normally. -/
inductive Fault where
  /-- a C++ exception leaves the call -/
  | exception (ex : Exn)
  /-- Call `resume()` of a coroutine suspended at its final suspend point -/
  | resume_final
  /-- a handle or pointer that designates no frame -/
  | bad_handle
  /-- the lambda of `async_read::await_suspend` runs after its awaiter is gone -/
  | dangling_awaiter
  /-- the model ran out of fuel -/
  | out_of_fuel
  deriving DecidableEq, Repr

/-- Coroutine bodies (every task is `void`). -/
inductive Body where
  /-- Statement `co_return;` or flowing off the end of the body -/
  | done
  /-- Statement `throw std::runtime_error(what);` -/
  | throw (what : String)
  /-- Statement `std::cout << s;` -/
  | print (s : String) (k : Body)
  /-- Expression `co_await value_awaiter{v}` -/
  | await_value (v : Int) (k : Int → Body)
  /-- Expression `co_await async_read(context)` -/
  | await_read (k : String → Body)
  /-- Expression `co_await child(context)` where `child` is a coroutine returning `task` -/
  | await_task (child : Body) (k : Body)

/-- The struct `value_awaiter`. -/
structure value_awaiter where
  value : Int
  deriving DecidableEq, Repr

/-- Member `value_awaiter::await_ready`. -/
@[simp]
def value_awaiter.await_ready (_ : value_awaiter) : Bool := true

/-- Member `value_awaiter::await_resume`. -/
def value_awaiter.await_resume (a : value_awaiter) : Int := a.value

/-- The struct `task::promise_type`. -/
structure promise_type where
  continuation : Handle := Handle.noop
  error : Option Exn := none
  deriving DecidableEq, Repr

/-- Member `promise_type::unhandled_exception`; `ex` is the exception in flight. -/
def promise_type.unhandled_exception (p : promise_type) (ex : Exn) : promise_type :=
  { p with error := some ex }

/-- Member `promise_type::return_void`. -/
def promise_type.return_void (p : promise_type) : promise_type := p

/-- The lambda that `async_read::await_suspend` stores: it captures `this`
(the awaiter object, numbered) and `handle` (the frame that awaits). -/
structure Callback where
  this : Nat
  handle : Nat
  deriving DecidableEq, Repr

/-- The struct `async_read` without its reference to the context; `id`
numbers the awaiter objects in the order they are created. -/
structure async_read where
  id : Nat
  line : String := ""
  deriving DecidableEq, Repr

/-- Member `async_read::await_ready`. -/
@[simp]
def async_read.await_ready (_ : async_read) : Bool := false

/-- Member `async_read::await_resume`. -/
def async_read.await_resume (a : async_read) : String := a.line

/-- Where a suspended frame resumes. -/
inductive Point where
  /-- at `initial_suspend`, before any statement of the body -/
  | initial (body : Body)
  /-- in `co_await async_read`: the awaiter object and the rest of the body -/
  | read (aw : async_read) (k : String → Body)
  /-- in `co_await value_awaiter` (where an awaiter not ready would suspend;
  `await_ready` is always true, so no frame is ever suspended here) -/
  | value (a : value_awaiter) (k : Int → Body)
  /-- in `co_await` of the task whose frame is `child` -/
  | task (child : Nat) (k : Body)
  /-- at `final_suspend` -/
  | final

/-- A coroutine frame of a `task`. -/
structure Frame where
  promise : promise_type
  point : Point

/-- Calls recorded for the statements about how often something is called. -/
inductive Event where
  /-- Assignment `context.completion = cb` in `async_read::await_suspend` -/
  | register (cb : Callback)
  /-- Call `completion(line)` in `io::complete(line)` with `cb` in the slot -/
  | invoke (cb : Callback) (line : String)
  /-- Call `final_awaiter::await_suspend` of frame `id` resumed `target` -/
  | final_resume (id : Nat) (target : Handle)
  deriving DecidableEq, Repr

/-- The struct `io`: an empty `std::function` is `none`. -/
structure io where
  completion : Option Callback := none
  deriving DecidableEq, Repr

/-- Whole program state: frames by number, the one `io` context, `std::cout`
as the list of chunks written, the recorded calls, the next awaiter number. -/
structure Machine where
  frames : List Frame := []
  context : io := {}
  out : List String := []
  trace : List Event := []
  next_awaiter : Nat := 0

/-- Replace frame `id`. -/
def Machine.setFrame (m : Machine) (id : Nat) (f : Frame) : Machine :=
  { m with frames := m.frames.set id f }

/-- Calling a coroutine function: the frame is created with a fresh promise
and suspends at `initial_suspend`; the new frame number is returned. -/
def Machine.construct (m : Machine) (body : Body) : Machine × Nat :=
  ({ m with frames := m.frames ++ [⟨{}, .initial body⟩] }, m.frames.length)

/-- Member `nested_awaiter::await_ready`. -/
@[simp]
def nested_awaiter.await_ready : Bool := false

/-- Member `nested_awaiter::await_suspend` up to its call of `resume()`:
writes `promise->continuation` of frame `child` and names the handle resumed. -/
def nested_awaiter.await_suspend (m : Machine) (child : Nat) (handle : Handle) :
    Except Fault (Machine × Handle) :=
  match m.frames[child]? with
  | none => .error .bad_handle
  | some c =>
    .ok (m.setFrame child { c with promise := { c.promise with continuation := handle } },
         .coro child)

/-- Member `nested_awaiter::await_resume`: the body is empty. -/
def nested_awaiter.await_resume (_ : Machine) (_ : Nat) : Unit := ()

/-- Member `async_read::await_suspend` called with the handle of frame `handle`. -/
def async_read.await_suspend (m : Machine) (a : async_read) (handle : Nat) : Machine :=
  { m with
    context := { completion := some ⟨a.id, handle⟩ }
    trace := m.trace ++ [.register ⟨a.id, handle⟩] }

/-- Frame `id` reaches `final_suspend` with promise `p`: the frame is suspended
there and `final_awaiter::await_suspend` names the handle it resumes. -/
def final_suspend (m : Machine) (id : Nat) (f : Frame) (p : promise_type) : Machine × Handle :=
  let h := p.continuation
  let m1 := m.setFrame id { f with promise := p, point := .final }
  ({ m1 with trace := m1.trace ++ [.final_resume id h] }, h)

/-- What runs next: `h.resume()` or the rest `b` of the body of frame `id`. -/
inductive Ctl where
  | resume (h : Handle)
  | body (id : Nat) (b : Body)

/-- Frame `id` leaves `co_await` of the task in frame `child`:
`nested_awaiter::await_resume` returns nothing and the body goes on. -/
def resume_from_task (m : Machine) (id child : Nat) (k : Body) :
    Except Fault (Machine × Option Ctl) :=
  match nested_awaiter.await_resume m child with
  | () => .ok (m, some (.body id k))

/-- One stretch of execution: the new state, and what runs next (`none` when
the outermost `resume()` returns).  A `co_await` asks `await_ready`, and
suspends and calls `await_suspend` when it is false; `await_resume` gives the
value of the expression.  The calls of `resume()` inside
`nested_awaiter::await_suspend` and `final_awaiter::await_suspend` are the last
thing these functions do and the coroutine that made them is suspended, so
nothing is left to run when such a nested call returns. -/
def step (m : Machine) : Ctl → Except Fault (Machine × Option Ctl)
  | .resume .noop => .ok (m, none)
  | .resume (.coro id) =>
    match m.frames[id]? with
    | none => .error .bad_handle
    | some f =>
      match f.point with
      | .initial b => .ok (m, some (.body id b))
      | .read aw k => .ok (m, some (.body id (k aw.await_resume)))
      | .value a k => .ok (m, some (.body id (k a.await_resume)))
      | .task child k => resume_from_task m id child k
      | .final => .error .resume_final
  | .body id b =>
    match m.frames[id]? with
    | none => .error .bad_handle
    | some f =>
      match b with
      | .print s k => .ok ({ m with out := m.out ++ [s] }, some (.body id k))
      | .await_value v k =>
        let a : value_awaiter := ⟨v⟩
        if a.await_ready then .ok (m, some (.body id (k a.await_resume)))
        else .ok (m.setFrame id { f with point := .value a k }, none)
      | .await_read k =>
        let a : async_read := { id := m.next_awaiter }
        let m1 := { m with next_awaiter := m.next_awaiter + 1 }
        if a.await_ready then .ok (m1, some (.body id (k a.await_resume)))
        else
          let m2 := m1.setFrame id { f with point := .read a k }
          .ok (async_read.await_suspend m2 a id, none)
      | .await_task child k =>
        let (m1, c) := m.construct child
        if nested_awaiter.await_ready then resume_from_task m1 id c k
        else
          let m2 := m1.setFrame id { f with point := .task c k }
          match nested_awaiter.await_suspend m2 c (.coro id) with
          | .error e => .error e
          | .ok (m3, h) => .ok (m3, some (.resume h))
      | .done =>
        let (m1, h) := final_suspend m id f f.promise.return_void
        .ok (m1, some (.resume h))
      | .throw what =>
        let (m1, h) := final_suspend m id f (f.promise.unhandled_exception (.runtime_error what))
        .ok (m1, some (.resume h))

/-- Runs a call of `resume()` until it returns. -/
def run : Nat → Machine → Ctl → Except Fault Machine
  | 0, _, _ => .error .out_of_fuel
  | n + 1, m, c =>
    match step m c with
    | .error e => .error e
    | .ok (m1, none) => .ok m1
    | .ok (m1, some c1) => run n m1 c1

/-- Member `task::start`. -/
def task.start (fuel : Nat) (m : Machine) (t : Nat) : Except Fault Machine :=
  run fuel m (.resume (.coro t))

/-- The lambda of `async_read::await_suspend` called with `line`. -/
def Callback.call (fuel : Nat) (m : Machine) (cb : Callback) (line : String) :
    Except Fault Machine :=
  match m.frames[cb.handle]? with
  | none => .error .bad_handle
  | some f =>
    match f.point with
    | .read aw k =>
      if aw.id = cb.this then
        run fuel (m.setFrame cb.handle { f with point := .read { aw with line := line } k })
          (.resume (.coro cb.handle))
      else .error .dangling_awaiter
    | _ => .error .dangling_awaiter

/-- Member `io::complete`: calls `completion` whatever it holds. -/
def io.complete (fuel : Nat) (m : Machine) (line : String) : Except Fault Machine :=
  match m.context.completion with
  | none => .error (.exception .bad_function_call)
  | some cb => cb.call fuel { m with trace := m.trace ++ [.invoke cb line] } line

/-- The coroutine `g`. -/
def g : Body :=
  .print "third=" <| .await_read fun s => .print s <| .print "\n" <| .done

/-- The coroutine `f`. -/
def f : Body :=
  .await_value 17 fun v => .print (toString v) <| .print "\n" <|
  .print "first=" <| .await_read fun s => .print s <| .print "\n" <|
  .print "second=" <| .await_read fun s => .print s <| .print "\n" <|
  .await_task g <|
  .print "f done\n" <|
  .done

/-- Text of `ex.what()`; that of `std::bad_function_call` is the library's. -/
def Exn.what : Exn → String
  | .runtime_error what => what
  | .bad_function_call => "bad_function_call"

/-- One statement `op` of the `try` block of `main`, with `(m, caught)` the
state before it: nothing runs once an exception was caught; an exception that
`op` throws is caught by `catch (std::exception const& ex)`, which writes
`ex.what()`.  The only call that throws, `completion(line)` on an empty slot,
does so before it changes anything, so the handler runs in the state `m`. -/
def in_try (op : Machine → Except Fault Machine) :
    Except Fault (Machine × Bool) → Except Fault (Machine × Bool)
  | .error x => .error x
  | .ok (m, true) => .ok (m, true)
  | .ok (m, false) =>
    match op m with
    | .ok m1 => .ok (m1, false)
    | .error (.exception ex) => .ok ({ m with out := m.out ++ ["ERROR: ", ex.what, "\n"] }, true)
    | .error x => .error x

/-- The function `main`: the chunks that `main` and the bodies write to `std::cout`. -/
def main (fuel : Nat) : Except Fault (List String) :=
  let (m0, t) := ({} : Machine).construct f
  let s0 : Except Fault (Machine × Bool) :=
    .ok ({ m0 with out := m0.out ++ ["--- after calling f\n"] }, false)
  let s1 := in_try (fun m => task.start fuel m t) s0
  let s2 := in_try (fun m => io.complete fuel m "1st") s1
  let s3 := in_try (fun m => io.complete fuel m "2nd") s2
  let s4 := in_try (fun m => io.complete fuel m "3rd") s3
  s4.map (fun s => s.1.out)

/-- Whether a frame is suspended at `final_suspend`, that is, completed. -/
def Point.is_final : Point → Bool
  | .final => true
  | _ => false

/-- What `main` does between suspensions. -/
inductive Op where
  /-- call a coroutine function returning `task` -/
  | construct (body : Body)
  /-- Call `t.start()` -/
  | start (t : Nat)
  /-- Call `context.complete(line)` -/
  | complete (line : String)

/-- A sequence of driver calls, each given `fuel`. -/
def drive (fuel : Nat) : Machine → List Op → Except Fault Machine
  | m, [] => .ok m
  | m, .construct body :: ops => drive fuel (m.construct body).1 ops
  | m, .start t :: ops =>
    match task.start fuel m t with
    | .ok m1 => drive fuel m1 ops
    | .error e => .error e
  | m, .complete line :: ops =>
    match io.complete fuel m line with
    | .ok m1 => drive fuel m1 ops
    | .error e => .error e

/-- Callback `old` is not in the slot any more and was not called after the
calls `t0`. -/
def Machine.retired (m : Machine) (old : Callback) (t0 : List Event) : Prop :=
  old.this < m.next_awaiter ∧
  m.context.completion ≠ some old ∧
  ∃ s, m.trace = t0 ++ s ∧ ∀ v, Event.invoke old v ∉ s

/-- The awaiter of the callback in the slot was created before `next_awaiter`. -/
def Machine.slot_ok (m : Machine) : Prop :=
  ∀ cb, m.context.completion = some cb → cb.this < m.next_awaiter

end TaskUsingStd

namespace TaskAccu

theorem run_invariant (Inv : Machine → Option Ctl → Prop)
    (hstep : ∀ m c m1 oc, Inv m (some c) → step m c = .ok (m1, oc) → Inv m1 oc) :
    ∀ n m c m1, Inv m (some c) → run n m c = .ok m1 → Inv m1 none := by
  intro n
  induction n with
  | zero => intro m c m1 _ h; simp [run] at h
  | succ n ih =>
    intro m c m1 hinv h
    rw [run] at h
    split at h
    · simp at h
    · next m2 heq =>
      simp only [Except.ok.injEq] at h
      subst h
      exact hstep _ _ _ _ hinv heq
    · next m2 c2 heq =>
      exact ih _ _ _ (hstep _ _ _ _ hinv heq) h

/-- Resuming a frame changes no state and goes on in the body of that frame,
which is not at `final_suspend`. -/
theorem step_resume (m : Machine) (id : Nat) (m1 : Machine) (oc : Option Ctl)
    (h : step m (.resume (.coro id)) = .ok (m1, oc)) :
    m1 = m ∧ ∃ f b, m.frames[id]? = some f ∧ f.point.is_final = false ∧
      oc = some (.body id b) := by
  simp only [step] at h
  split at h
  · simp at h
  · next f hf =>
    split at h
    · next b hp =>
      simp at h; obtain ⟨rfl, rfl⟩ := h
      exact ⟨rfl, f, _, hf, by simp [hp, Point.is_final], rfl⟩
    · next aw k hp =>
      simp at h; obtain ⟨rfl, rfl⟩ := h
      exact ⟨rfl, f, _, hf, by simp [hp, Point.is_final], rfl⟩
    · next a k hp =>
      simp at h; obtain ⟨rfl, rfl⟩ := h
      exact ⟨rfl, f, _, hf, by simp [hp, Point.is_final], rfl⟩
    · next child k hp =>
      simp only [resume_from_task] at h
      split at h
      · simp at h; obtain ⟨rfl, rfl⟩ := h
        exact ⟨rfl, f, _, hf, by simp [hp, Point.is_final], rfl⟩
      · simp at h; obtain ⟨rfl, rfl⟩ := h
        exact ⟨rfl, f, _, hf, by simp [hp, Point.is_final], rfl⟩
      · simp at h
    · simp at h

theorem drive_invariant (P : Machine → Prop) (fuel : Nat)
    (hc : ∀ m R body, P m → P (m.construct R body).1)
    (hs : ∀ m t m1, P m → task.start fuel m t = .ok m1 → P m1)
    (hk : ∀ m fd value m1, P m → io.complete fuel m fd value = .ok m1 → P m1) :
    ∀ ops m m1, P m → drive fuel m ops = .ok m1 → P m1 := by
  intro ops
  induction ops with
  | nil => intro m m1 hp h; simp [drive] at h; subst h; exact hp
  | cons op ops ih =>
    intro m m1 hp h
    cases op with
    | construct R body => exact ih _ _ (hc _ _ _ hp) (by simpa [drive] using h)
    | start t =>
      simp only [drive] at h
      split at h
      · next m2 heq => exact ih _ _ (hs _ _ _ hp heq) h
      · simp at h
    | complete fd value =>
      simp only [drive] at h
      split at h
      · next m2 heq => exact ih _ _ (hk _ _ _ _ hp heq) h
      · simp at h

theorem find_some_mem (c : io) (fd : Int) (cb : Callback) (h : c.find fd = some cb) :
    (fd, cb) ∈ c.outstanding := by
  simp only [io.find, Option.map_eq_some'] at h
  obtain ⟨e, he, rfl⟩ := h
  have h1 := List.mem_of_find?_eq_some he
  have h2 := List.find?_some he
  simp at h2
  subst h2
  exact h1

theorem erase_find (c : io) (fd : Int) : (c.erase fd).find fd = none := by
  simp [io.find, io.erase, List.find?_eq_none]

theorem submit_find (c : io) (fd : Int) (cb : Callback) : (c.submit fd cb).find fd = some cb := by
  simp [io.find, io.submit]

theorem mem_erase (c : io) (fd : Int) (e : Int × Callback) (h : e ∈ (c.erase fd).outstanding) :
    e ∈ c.outstanding ∧ e.1 ≠ fd := by
  simpa [io.erase, List.mem_filter] using h

theorem erase_nodup (c : io) (fd : Int) (h : (c.outstanding.map Prod.fst).Nodup) :
    ((c.erase fd).outstanding.map Prod.fst).Nodup := by
  simp only [io.erase]
  exact (List.Nodup.sublist (List.Sublist.map _ (List.filter_sublist _)) h)

theorem submit_nodup (c : io) (fd : Int) (cb : Callback) (h : (c.outstanding.map Prod.fst).Nodup) :
    ((c.submit fd cb).outstanding.map Prod.fst).Nodup := by
  simp only [io.submit, List.map_cons, List.nodup_cons]
  refine ⟨?_, erase_nodup c fd h⟩
  intro hmem
  simp only [List.mem_map] at hmem
  obtain ⟨e, he, hfd⟩ := hmem
  exact (mem_erase c fd e he).2 hfd

theorem nodup_filter_le_one (l : List (Int × Callback)) (fd : Int)
    (h : (l.map Prod.fst).Nodup) : (l.filter (fun e => e.1 == fd)).length ≤ 1 := by
  induction l with
  | nil => simp
  | cons a l ih =>
    simp only [List.map_cons, List.nodup_cons] at h
    by_cases ha : a.1 = fd
    · have : l.filter (fun e => e.1 == fd) = [] := by
        rw [List.filter_eq_nil_iff]
        intro e he hfd
        simp at hfd
        apply h.1
        rw [ha, ← hfd]
        exact List.mem_map_of_mem _ he
      simp [List.filter_cons, ha, this]
    · have := ih h.2
      simpa [List.filter_cons, ha] using this

/-- What one step does to the registry, the awaiter counter and the trace. -/
theorem step_effect (m : Machine) (c : Ctl) (m1 : Machine) (oc : Option Ctl)
    (h : step m c = .ok (m1, oc)) :
    (m1.context = m.context ∧ m1.next_awaiter = m.next_awaiter ∧
      (m1.trace = m.trace ∨ ∃ id hd, m1.trace = m.trace ++ [.final_transfer id hd]))
    ∨ (∃ fd id, m1.context = m.context.submit fd ⟨m.next_awaiter, id⟩ ∧
        m1.next_awaiter = m.next_awaiter + 1 ∧
        m1.trace = m.trace ++ [.submit fd ⟨m.next_awaiter, id⟩]) := by
  cases c with
  | resume hd =>
    left
    cases hd with
    | noop => simp [step] at h; obtain ⟨rfl, rfl⟩ := h; simp
    | coro id =>
      obtain ⟨rfl, -⟩ := step_resume m id m1 oc h
      simp
  | body id b =>
    simp only [step] at h
    split at h
    · simp at h
    · next f hf =>
      cases b with
      | print s k => left; simp at h; obtain ⟨rfl, rfl⟩ := h; simp
      | await_value v k =>
        left; simp [value_awaiter.await_ready] at h; obtain ⟨rfl, rfl⟩ := h; simp
      | await_read fd k =>
        right
        simp at h; obtain ⟨rfl, rfl⟩ := h
        exact ⟨fd, id, rfl, rfl, rfl⟩
      | await_task R child k =>
        left
        simp only [Machine.construct, nested_awaiter.await_suspend, Machine.setFrame,
          nested_awaiter.await_ready, Bool.false_eq_true, if_false] at h
        split at h
        · simp at h
        · next m3 hd heq =>
          split at heq
          · simp at heq
          · simp at heq h
            obtain ⟨rfl, rfl⟩ := heq
            obtain ⟨rfl, rfl⟩ := h
            simp
      | co_return v =>
        left
        dsimp only at h
        split at h
        · simp at h
        · split at h
          · simp at h
          · simp [final_suspend, Machine.setFrame] at h; obtain ⟨rfl, rfl⟩ := h; simp
      | co_return_void =>
        left
        dsimp only at h
        split at h
        · simp at h
        · simp [final_suspend, Machine.setFrame] at h; obtain ⟨rfl, rfl⟩ := h; simp
      | throw what =>
        left
        simp [final_suspend, Machine.setFrame] at h; obtain ⟨rfl, rfl⟩ := h; simp

theorem erase_this_nodup (c : io) (fd : Int)
    (h : (c.outstanding.map (fun e => e.2.this)).Nodup) :
    ((c.erase fd).outstanding.map (fun e => e.2.this)).Nodup := by
  simp only [io.erase]
  exact (List.Nodup.sublist (List.Sublist.map _ (List.filter_sublist _)) h)

theorem step_registry_ok (m : Machine) (c : Ctl) (m1 : Machine) (oc : Option Ctl)
    (hinv : m.registry_ok) (h : step m c = .ok (m1, oc)) : m1.registry_ok := by
  rcases step_effect m c m1 oc h with ⟨hc, hn, _⟩ | ⟨fd, id, hc, hn, _⟩
  · simpa [Machine.registry_ok, hc, hn] using hinv
  · simp only [Machine.registry_ok, hc, hn]
    refine ⟨submit_nodup _ _ _ hinv.1, ?_, ?_⟩
    · intro e he
      simp only [io.submit, List.mem_cons] at he
      rcases he with rfl | he
      · simp
      · have := hinv.2.1 e (mem_erase _ _ _ he).1
        omega
    · simp only [io.submit, List.map_cons, List.nodup_cons]
      refine ⟨?_, erase_this_nodup _ _ hinv.2.2⟩
      intro hmem
      simp only [List.mem_map] at hmem
      obtain ⟨e, he, hthis⟩ := hmem
      have := hinv.2.1 e (mem_erase _ _ _ he).1
      omega

theorem step_retired (old : Callback) (t0 : List Event) (m : Machine) (c : Ctl) (m1 : Machine)
    (oc : Option Ctl) (hinv : m.retired old t0) (h : step m c = .ok (m1, oc)) :
    m1.retired old t0 := by
  obtain ⟨hlt, hne, s, hs, hno⟩ := hinv
  rcases step_effect m c m1 oc h with ⟨hc, hn, ht⟩ | ⟨fd, id, hc, hn, ht⟩
  · refine ⟨by omega, by simpa [hc] using hne, ?_⟩
    rcases ht with ht | ⟨id, hd, ht⟩
    · exact ⟨s, by rw [ht, hs], hno⟩
    · refine ⟨s ++ [.final_transfer id hd], by rw [ht, hs, List.append_assoc], ?_⟩
      intro fd v hmem
      simp at hmem
      exact hno fd v hmem
  · refine ⟨by omega, ?_, ?_⟩
    · intro e he
      rw [hc] at he
      simp only [io.submit, List.mem_cons] at he
      rcases he with rfl | he
      · intro heq
        rw [← heq] at hlt
        simp at hlt
      · exact hne e (mem_erase _ _ _ he).1
    · refine ⟨s ++ [.submit fd ⟨m.next_awaiter, id⟩], by rw [ht, hs, List.append_assoc], ?_⟩
      intro fd v hmem
      simp at hmem
      exact hno fd v hmem

theorem run_registry_ok (n : Nat) (m : Machine) (c : Ctl) (m1 : Machine)
    (hinv : m.registry_ok) (h : run n m c = .ok m1) : m1.registry_ok :=
  run_invariant (fun m _ => m.registry_ok) (fun _ _ _ _ hi hs => step_registry_ok _ _ _ _ hi hs)
    n m c m1 hinv h

theorem run_retired (old : Callback) (t0 : List Event) (n : Nat) (m : Machine) (c : Ctl)
    (m1 : Machine) (hinv : m.retired old t0) (h : run n m c = .ok m1) : m1.retired old t0 :=
  run_invariant (fun m _ => m.retired old t0) (fun _ _ _ _ hi hs => step_retired _ _ _ _ _ _ hi hs)
    n m c m1 hinv h

theorem complete_registry_ok (fuel : Nat) (m : Machine) (fd : Int) (value : String) (m1 : Machine)
    (hinv : m.registry_ok) (h : io.complete fuel m fd value = .ok m1) : m1.registry_ok := by
  simp only [io.complete] at h
  split at h
  · simp at h; subst h; exact hinv
  · next cb hcb =>
    simp only [Callback.call] at h
    split at h
    · simp at h
    · split at h
      · split at h
        · refine run_registry_ok _ _ _ _ ?_ h
          simp only [Machine.registry_ok, Machine.setFrame]
          refine ⟨erase_nodup _ _ hinv.1, ?_, erase_this_nodup _ _ hinv.2.2⟩
          intro e he
          exact hinv.2.1 e (mem_erase _ _ _ he).1
        · simp at h
      · simp at h

theorem complete_retired (old : Callback) (t0 : List Event) (fuel : Nat) (m : Machine) (fd : Int)
    (value : String) (m1 : Machine)
    (hinv : m.retired old t0) (h : io.complete fuel m fd value = .ok m1) : m1.retired old t0 := by
  simp only [io.complete] at h
  split at h
  · simp at h; subst h; exact hinv
  · next cb hcb =>
    obtain ⟨hlt, hne, s, hs, hno⟩ := hinv
    have hcbne : cb ≠ old := hne _ (find_some_mem _ _ _ hcb)
    simp only [Callback.call] at h
    split at h
    · simp at h
    · split at h
      · split at h
        · refine run_retired _ _ _ _ _ _ ?_ h
          simp only [Machine.retired, Machine.setFrame]
          refine ⟨hlt, ?_, s ++ [.invoke fd cb value], by rw [hs, List.append_assoc], ?_⟩
          · intro e he
            exact hne e (mem_erase _ _ _ he).1
          · intro fd2 v hmem
            simp at hmem
            rcases hmem with hmem | ⟨_, h2, _⟩
            · exact hno fd2 v hmem
            · exact hcbne h2.symm
        · simp at h
      · simp at h

theorem drive_registry_ok (fuel : Nat) (ops : List Op) (m m1 : Machine)
    (hinv : m.registry_ok) (h : drive fuel m ops = .ok m1) : m1.registry_ok :=
  drive_invariant (fun m => m.registry_ok) fuel
    (fun _ _ _ hp => hp)
    (fun _ _ _ hp hs => run_registry_ok _ _ _ _ hp hs)
    (fun _ _ _ _ hp hs => complete_registry_ok _ _ _ _ _ hp hs) ops m m1 hinv h

theorem drive_retired (old : Callback) (t0 : List Event) (fuel : Nat) (ops : List Op)
    (m m1 : Machine) (hinv : m.retired old t0) (h : drive fuel m ops = .ok m1) :
    m1.retired old t0 :=
  drive_invariant (fun m => m.retired old t0) fuel
    (fun _ _ _ hp => hp)
    (fun _ _ _ hp hs => run_retired _ _ _ _ _ _ hp hs)
    (fun _ _ _ _ hp hs => complete_retired _ _ _ _ _ _ _ hp hs) ops m m1 hinv h



theorem lt_of_lookup {l : List Frame} {id : Nat} {f : Frame} (h : l[id]? = some f) :
    id < l.length := by
  by_contra hge
  have := List.getElem?_eq_none (l := l) (n := id) (by omega)
  simp [this] at h

theorem getElem?_append_set_old (l : List Frame) (id : Nat) (x y : Frame) (h : id < l.length) :
    ((l ++ [x]).set id y)[id]? = some y := by
  rw [List.getElem?_set_self (by simp; omega)]

theorem getElem?_append_set_new (l : List Frame) (id : Nat) (x y : Frame) (h : id < l.length) :
    ((l ++ [x]).set id y)[l.length]? = some x := by
  have hne : id ≠ l.length := by omega
  rw [List.getElem?_set_ne hne]
  simp

/-- A frame that executes `throw` stores the exception in its promise, is
suspended at `final_suspend`, and control goes to its continuation. -/
theorem run_throw (fuel : Nat) (m : Machine) (id : Nat) (fr : Frame) (what : String)
    (hf : m.frames[id]? = some fr) :
    run (fuel + 1) m (.body id (.throw what)) =
      run fuel
        { m with
          frames := m.frames.set id
            { fr with promise := fr.promise.unhandled_exception what, point := .final }
          trace := m.trace ++ [.final_transfer id fr.promise.continuation] }
        (.resume fr.promise.continuation) := by
  simp [run, step, hf, final_suspend, final_awaiter.await_suspend, Machine.setFrame,
    promise_type.unhandled_exception]

/-- A frame resumed from `co_await child` where the child's promise holds an
error completes with that error without running the rest of its body. -/
theorem run_resume_rethrows (fuel : Nat) (m : Machine) (id child : Nat) (fr c : Frame)
    (k : Val → Body) (what : String)
    (hf : m.frames[id]? = some fr) (hp : fr.point = .task child k)
    (hc : m.frames[child]? = some c) (he : c.promise.error = some what) :
    run (fuel + 2) m (.resume (.coro id)) =
      run fuel
        { m with
          frames := m.frames.set id
            { fr with promise := fr.promise.unhandled_exception what, point := .final }
          trace := m.trace ++ [.final_transfer id fr.promise.continuation] }
        (.resume fr.promise.continuation) := by
  rw [← run_throw fuel m id fr what hf]
  simp [run, step, hf, hp, resume_from_task, nested_awaiter.await_resume, hc, promise_type.value, he]

theorem throw_child (m : Machine) (id : Nat) (fr : Frame) (R : RTy)
    (what : String) (k : Val → Body) (fuel : Nat) (hf : m.frames[id]? = some fr) :
    run (fuel + 5) m (.body id (.await_task R (.throw what) k)) =
        run fuel
          { m with
            frames := (m.frames ++
                [(⟨R, { error := some what, continuation := .coro id }, .final⟩ : Frame)]).set id
                { fr with promise := fr.promise.unhandled_exception what, point := .final }
            trace := m.trace ++ [.final_transfer m.frames.length (.coro id),
              .final_transfer id fr.promise.continuation] }
          (.resume fr.promise.continuation) := by
  have hid := lt_of_lookup hf
  have hne : id ≠ m.frames.length := by omega
  have hne2 : m.frames.length ≠ id := by omega
  simp [run, step, hf, Machine.construct, Machine.setFrame, nested_awaiter.await_suspend,
    nested_awaiter.await_resume, resume_from_task, final_suspend, final_awaiter.await_suspend,
    promise_type.unhandled_exception, promise_type.value, List.getElem?_set, hid, hne, hne2,
    List.getElem?_append_left, List.getElem?_append_right]

/-- C1: in task-accu.cpp an exception thrown by the body of an awaited task is
stored in that task's promise and control goes on to the awaiting task;
`nested_awaiter::await_resume` rethrows it there, so the awaiting task runs none
of the statements after the `co_await` (its continuation `k` is dropped and
`std::cout` is unchanged) and completes with the same error; `task::value` on
that task rethrows it, and `main` writes `ERROR: exception from task` and never
`f end`.  The first two parts hold for any frame that throws, and for any frame
resumed from the `co_await` of a task whose promise holds an error. -/
theorem exception_propagates_to_root (m : Machine) (id : Nat) (fr : Frame) (R : RTy)
    (what : String) (k : Val → Body) (fuel : Nat) (hf : m.frames[id]? = some fr) :
    (∀ (m2 : Machine) (id2 : Nat) (fr2 : Frame), m2.frames[id2]? = some fr2 →
      run (fuel + 1) m2 (.body id2 (.throw what)) =
        run fuel
          { m2 with
            frames := m2.frames.set id2
              { fr2 with promise := { fr2.promise with error := some what }, point := .final }
            trace := m2.trace ++ [.final_transfer id2 fr2.promise.continuation] }
          (.resume fr2.promise.continuation))
    ∧ (∀ (m2 : Machine) (id2 child : Nat) (fr2 c : Frame) (k2 : Val → Body),
        m2.frames[id2]? = some fr2 → fr2.point = .task child k2 →
        m2.frames[child]? = some c → c.promise.error = some what →
        nested_awaiter.await_resume m2 child = .error (.exception what)
        ∧ run (fuel + 2) m2 (.resume (.coro id2)) =
          run fuel
            { m2 with
              frames := m2.frames.set id2
                { fr2 with promise := { fr2.promise with error := some what }, point := .final }
              trace := m2.trace ++ [.final_transfer id2 fr2.promise.continuation] }
            (.resume fr2.promise.continuation))
    ∧ run (fuel + 5) m (.body id (.await_task R (.throw what) k)) =
        run fuel
          { m with
            frames := (m.frames ++
                [(⟨R, { error := some what, continuation := .coro id }, .final⟩ : Frame)]).set id
                { fr with promise := { fr.promise with error := some what }, point := .final }
            trace := m.trace ++ [.final_transfer m.frames.length (.coro id),
              .final_transfer id fr.promise.continuation] }
          (.resume fr.promise.continuation)
    ∧ (fr.promise.continuation = .noop →
        ∃ m1, run (fuel + 6) m (.body id (.await_task R (.throw what) k)) = .ok m1
          ∧ m1.out = m.out
          ∧ m1.frames[m.frames.length]? =
              some ⟨R, { error := some what, continuation := .coro id }, .final⟩
          ∧ m1.frames[id]? =
              some { fr with promise := { fr.promise with error := some what }, point := .final }
          ∧ task.value m1 id = .error (.exception what))
    ∧ main (fuel + 11) = .ok ["value=", "17", "\n", "awaiter=", "first line", "\n", "task=",
        "second line", "\n", "ERROR: ", "exception from task", "\n"]
    ∧ "f end\n" ∉ ["value=", "17", "\n", "awaiter=", "first line", "\n", "task=",
        "second line", "\n", "ERROR: ", "exception from task", "\n"] := by
  have hid := lt_of_lookup hf
  refine ⟨?_, ?_, throw_child m id fr R what k fuel hf, ?_, rfl, by decide⟩
  · intro m2 id2 fr2 h2
    exact run_throw fuel m2 id2 fr2 what h2
  · intro m2 id2 child fr2 c k2 h2 hp hc he
    refine ⟨?_, run_resume_rethrows fuel m2 id2 child fr2 c k2 what h2 hp hc he⟩
    simp [nested_awaiter.await_resume, hc, promise_type.value, he]
  · intro hnoop
    have hne : ¬ id = m.frames.length := by omega
    refine ⟨{ m with
            frames := (m.frames ++
                [(⟨R, { error := some what, continuation := .coro id }, .final⟩ : Frame)]).set id
                { fr with promise := { fr.promise with error := some what }, point := .final }
            trace := m.trace ++ [.final_transfer m.frames.length (.coro id),
              .final_transfer id fr.promise.continuation] }, ?_, rfl, ?_, ?_, ?_⟩
    · rw [throw_child m id fr R what k (fuel + 1) hf, hnoop]
      simp [run, step, promise_type.unhandled_exception]
    · exact getElem?_append_set_new _ _ _ _ hid
    · exact getElem?_append_set_old _ _ _ _ hid
    · simp only [task.value]
      rw [getElem?_append_set_old _ _ _ _ hid]
      simp [promise_type.value]

theorem exception_propagates_to_root_witness :
    main 11 = .ok ["value=", "17", "\n", "awaiter=", "first line", "\n", "task=",
        "second line", "\n", "ERROR: ", "exception from task", "\n"] :=
  (exception_propagates_to_root
    { frames := [⟨.void, {}, .initial .co_return_void⟩] } 0 ⟨.void, {}, .initial .co_return_void⟩
    .void "exception from task" (fun _ => .co_return_void) 0 rfl).2.2.2.2.1



/-- C4: in task-accu.cpp, scenario S4 for every string `s`: after `start()`
of the outer task the inner frame's continuation is the outer frame, the outer
frame's continuation is the no-op handle, and only the inner task's read is
registered; after `complete(1, s)` the callback was called once, the inner
frame's `final_awaiter` transferred to the outer frame once and the outer's to
the no-op handle once, in this order, both frames are at `final_suspend` with
the value `s`, and `value()` of the root is `s`.  In general
`nested_awaiter::await_suspend` writes the handle it is given into the child's
`continuation` and returns the child's handle. -/
theorem nested_task_continuation_chain (s : String) (fuel : Nat) :
    (∀ (m : Machine) (child : Nat) (c : Frame) (h : Handle), m.frames[child]? = some c →
      nested_awaiter.await_suspend m child h =
        .ok (m.setFrame child { c with promise := { c.promise with continuation := h } },
             .coro child))
    ∧ ∃ m1 m2 : Machine,
      task.start (fuel + 4) (({} : Machine).construct (.value .string) outer).1 0 = .ok m1
      ∧ m1.frames.map (fun f => (f.promise, f.point.is_final))
          = [({ continuation := .noop }, false), ({ continuation := .coro 0 }, false)]
      ∧ m1.context.outstanding = [(1, ⟨0, 1⟩)]
      ∧ m1.trace = [.submit 1 ⟨0, 1⟩]
      ∧ io.complete (fuel + 6) m1 1 s = .ok m2
      ∧ m2.trace = [.submit 1 ⟨0, 1⟩, .invoke 1 ⟨0, 1⟩ s, .final_transfer 1 (.coro 0),
          .final_transfer 0 .noop]
      ∧ m2.frames.map (fun f => (f.promise, f.point.is_final))
          = [({ v := some (.str s), continuation := .noop }, true),
             ({ v := some (.str s), continuation := .coro 0 }, true)]
      ∧ m2.context.outstanding = []
      ∧ task.value m2 0 = .ok (.str s) := by
  refine ⟨?_, ?_⟩
  · intro m child c h hc
    simp [nested_awaiter.await_suspend, hc]
  · exact ⟨_, _, rfl, rfl, rfl, rfl, rfl, rfl, rfl, rfl, rfl⟩

theorem nested_task_continuation_chain_witness :
    nested_awaiter.await_suspend { frames := [⟨.value .string, {}, .initial g⟩] } 0 (.coro 7) =
      .ok ({ frames := [⟨.value .string, { continuation := .coro 7 }, .initial g⟩] }, .coro 0) :=
  (nested_task_continuation_chain "x" 0).1 { frames := [⟨.value .string, {}, .initial g⟩] } 0
    ⟨.value .string, {}, .initial g⟩ (.coro 7) rfl

/-- C5: in task-accu.cpp, `io::complete(fd, value)` for a handle without an
entry in `outstanding` returns with the whole state unchanged (no callback
called, nothing erased, no frame touched); a following `complete` for a handle
that has a pending callback calls that callback with its own value.  Scenario
S6: `complete(7, "noise")` changes nothing and `complete(1, "hello")` then
completes the task with `"hello"`. -/
theorem complete_unknown_handle_is_noop (m : Machine) (fd : Int) (value : String) (fuel : Nat)
    (h : m.context.find fd = none) :
    io.complete fuel m fd value = .ok m
    ∧ (∀ (fd2 : Int) (cb : Callback) (value2 : String), m.context.find fd2 = some cb →
        (io.complete fuel m fd value >>= fun m1 => io.complete fuel m1 fd2 value2) =
          cb.call fuel
            { m with context := m.context.erase fd2
                     trace := m.trace ++ [.invoke fd2 cb value2] } value2)
    ∧ (∀ s : String, ∃ m1 m2 : Machine,
        task.start (fuel + 2) (({} : Machine).construct (.value .string) g).1 0 = .ok m1
        ∧ io.complete fuel m1 7 "noise" = .ok m1
        ∧ io.complete (fuel + 4) m1 1 s = .ok m2
        ∧ m2.trace = [.submit 1 ⟨0, 0⟩, .invoke 1 ⟨0, 0⟩ s, .final_transfer 0 .noop]
        ∧ task.value m2 0 = .ok (.str s)) := by
  have h1 : io.complete fuel m fd value = .ok m := by simp [io.complete, h]
  refine ⟨h1, ?_, ?_⟩
  · intro fd2 cb value2 h2
    rw [h1]
    simp [bind, Except.bind, io.complete, h2]
  · intro s
    exact ⟨_, _, rfl, rfl, rfl, rfl, rfl⟩

theorem complete_unknown_handle_is_noop_witness :
    io.complete 0 { context := { outstanding := [(1, ⟨0, 0⟩)] } } 7 "noise"
      = .ok { context := { outstanding := [(1, ⟨0, 0⟩)] } } :=
  (complete_unknown_handle_is_noop { context := { outstanding := [(1, ⟨0, 0⟩)] } } 7 "noise" 0
    rfl).1

/-- C6: in task-accu.cpp, when a callback `cb` is pending for `fd`,
`io::complete(fd, v)` calls `cb` once, in the state in which the entry of `fd`
is already erased.  If the frame resumed by `cb` goes on to await another read
on `fd`, `complete` returns with `outstanding` holding, for `fd`, exactly the
new callback (a new awaiter object), which is neither erased nor called: the
trace gained one call of `cb` and one `submit`.  Scenario S3: after the first
`complete` the map has exactly one entry, and the two reads give `"ab"`. -/
theorem complete_erases_before_calling (m : Machine) (fd : Int) (cb : Callback) (v : String)
    (fuel : Nat) (h : m.context.find fd = some cb) :
    io.complete fuel m fd v =
        cb.call fuel
          { m with context := m.context.erase fd
                   trace := m.trace ++ [.invoke fd cb v] } v
    ∧ (m.context.erase fd).find fd = none
    ∧ (∀ (f : Frame) (aw : async_read) (k : String → Body) (k2 : String → Body),
        m.frames[cb.h]? = some f → f.point = .read aw k → aw.id = cb.this →
        k v = .await_read fd k2 →
        ∃ m1, io.complete (fuel + 2) m fd v = .ok m1
          ∧ m1.context.outstanding = (fd, ⟨m.next_awaiter, cb.h⟩) :: (m.context.erase fd).outstanding
          ∧ m1.context.find fd = some ⟨m.next_awaiter, cb.h⟩
          ∧ (m1.context.outstanding.filter (fun e => e.1 == fd)).length = 1
          ∧ m1.trace = m.trace ++ [.invoke fd cb v, .submit fd ⟨m.next_awaiter, cb.h⟩])
    ∧ (m.registry_ok → (⟨m.next_awaiter, cb.h⟩ : Callback) ≠ cb)
    ∧ (∃ m1 m2 m3 : Machine,
        task.start (fuel + 2) (({} : Machine).construct (.value .string) two_reads).1 0 = .ok m1
        ∧ m1.context.outstanding = [(1, ⟨0, 0⟩)]
        ∧ io.complete (fuel + 2) m1 1 "a" = .ok m2
        ∧ m2.context.outstanding = [(1, ⟨1, 0⟩)]
        ∧ m2.trace = [.submit 1 ⟨0, 0⟩, .invoke 1 ⟨0, 0⟩ "a", .submit 1 ⟨1, 0⟩]
        ∧ io.complete (fuel + 4) m2 1 "b" = .ok m3
        ∧ m3.context.outstanding = []
        ∧ task.value m3 0 = .ok (.str "ab")) := by
  refine ⟨by simp [io.complete, h], erase_find _ _, ?_, ?_,
    ⟨_, _, _, rfl, rfl, rfl, rfl, rfl, rfl, rfl, rfl⟩⟩
  rotate_left
  · intro hok heq
    have := hok.2.1 _ (find_some_mem _ _ _ h)
    rw [← heq] at this
    simp at this
  intro f aw k k2 hf hp hid hk
  have hlt := lt_of_lookup hf
  have hrun : io.complete (fuel + 2) m fd v = .ok
      { m with
        frames := (m.frames.set cb.h { f with point := .read { aw with value := v } k }).set cb.h
          { f with point := .read { id := m.next_awaiter, fd := fd } k2 }
        context := (m.context.erase fd).submit fd ⟨m.next_awaiter, cb.h⟩
        trace := m.trace ++ [.invoke fd cb v] ++ [.submit fd ⟨m.next_awaiter, cb.h⟩]
        next_awaiter := m.next_awaiter + 1 } := by
    simp [io.complete, h, Callback.call, hf, hp, hid, run, step, Machine.setFrame,
      List.getElem?_set, hlt, async_read.await_resume, hk, async_read.await_suspend]
  refine ⟨_, hrun, ?_, submit_find _ _ _, ?_, by simp⟩
  · simp [io.submit, io.erase]
  · simp [io.submit, io.erase, List.filter_cons, List.filter_filter]

theorem complete_erases_before_calling_witness :
    io.complete 3 { frames := [⟨.value .string, {}, .read { id := 0, fd := 1 } (fun s => .co_return (.str s))⟩]
                    context := { outstanding := [(1, ⟨0, 0⟩)] }
                    next_awaiter := 1 } 1 "x" =
      Callback.call 3
        { frames := [⟨.value .string, {}, .read { id := 0, fd := 1 } (fun s => .co_return (.str s))⟩]
          context := io.erase { outstanding := [(1, ⟨0, 0⟩)] } 1
          trace := [] ++ [.invoke 1 ⟨0, 0⟩ "x"]
          next_awaiter := 1 } ⟨0, 0⟩ "x" :=
  (complete_erases_before_calling
    { frames := [⟨.value .string, {}, .read { id := 0, fd := 1 } (fun s => .co_return (.str s))⟩]
      context := { outstanding := [(1, ⟨0, 0⟩)] }
      next_awaiter := 1 } 1 ⟨0, 0⟩ "x" 3 rfl).1

theorem deliveries_append (t1 t2 : List Event) :
    deliveries (t1 ++ t2) = deliveries t1 ++ deliveries t2 := by
  simp [deliveries, List.filterMap_append]

theorem complete_reading_last (fd : Int) (a : Nat) (acc buf : String) (o : List String)
    (t : List Event) (s : String) (fuel : Nat) :
    io.complete (fuel + 4) (reading fd a 0 acc buf o t) fd s = .ok
      { frames := [⟨.value .string, { v := some (.str (acc ++ s)) }, .final⟩]
        context := { outstanding := [] }
        out := o ++ [s]
        trace := t ++ [.invoke fd ⟨a, 0⟩ s, .final_transfer 0 .noop]
        next_awaiter := a + 1 } := by
  simp [io.complete, reading, io.find, io.erase, Callback.call, run, step, Machine.setFrame,
    async_read.await_resume, read_all, final_suspend, final_awaiter.await_suspend,
    promise_type.return_value, convert]

theorem complete_reading_next (fd : Int) (a n : Nat) (acc buf : String) (o : List String)
    (t : List Event) (s : String) (fuel : Nat) :
    io.complete (fuel + 3) (reading fd a (n + 1) acc buf o t) fd s = .ok
      (reading fd (a + 1) n (acc ++ s) "" (o ++ [s])
        (t ++ [.invoke fd ⟨a, 0⟩ s, .submit fd ⟨a + 1, 0⟩])) := by
  simp [io.complete, reading, io.find, io.erase, Callback.call, run, step, Machine.setFrame,
    async_read.await_resume, read_all, async_read.await_suspend, io.submit]

theorem complete_all_reading (fd : Int) (fuel : Nat) (ss : List String) :
    ∀ (a : Nat) (acc buf : String) (o : List String) (t : List Event) (s : String),
    ∃ m2, complete_all (fuel + 4) fd (reading fd a ss.length acc buf o t) (s :: ss) = .ok m2
      ∧ m2.out = o ++ s :: ss
      ∧ deliveries m2.trace = deliveries t ++ (s :: ss).enumFrom a
      ∧ m2.context.outstanding = []
      ∧ task.value m2 0 = .ok (.str ((s :: ss).foldl (· ++ ·) acc)) := by
  induction ss with
  | nil =>
    intro a acc buf o t s
    refine ⟨{ frames := [⟨.value .string, { v := some (.str (acc ++ s)) }, .final⟩]
              context := { outstanding := [] }
              out := o ++ [s]
              trace := t ++ [.invoke fd ⟨a, 0⟩ s, .final_transfer 0 .noop]
              next_awaiter := a + 1 }, ?_, ?_, ?_, ?_, ?_⟩
    · simp only [complete_all, List.length_nil, complete_reading_last]
    · rfl
    · simp [deliveries_append, deliveries]
    · rfl
    · simp [task.value, promise_type.value, base_value]
  | cons s2 ss ih =>
    intro a acc buf o t s
    obtain ⟨m2, h1, h2, h3, h4, h5⟩ := ih (a + 1) (acc ++ s) "" (o ++ [s])
      (t ++ [.invoke fd ⟨a, 0⟩ s, .submit fd ⟨a + 1, 0⟩]) s2
    refine ⟨m2, ?_, ?_, ?_, h4, ?_⟩
    · rw [complete_all]
      have := complete_reading_next fd a ss.length acc buf o t s (fuel + 1)
      simp only [List.length_cons]
      rw [this]
      exact h1
    · simp [h2]
    · rw [h3]
      simp [deliveries_append, deliveries, List.enumFrom]
    · rw [h5]
      simp [List.foldl]

theorem start_read_all (fd : Int) (n : Nat) (fuel : Nat) :
    task.start (fuel + 3) (({} : Machine).construct (.value .string) (read_all fd (n + 1) "")).1 0 =
      .ok (reading fd 0 n "" "" [] [.submit fd ⟨0, 0⟩]) := by
  simp [task.start, Machine.construct, run, step, read_all, reading, Machine.setFrame,
    async_read.await_suspend, io.submit, io.erase]

theorem start_read_none (fd : Int) (fuel : Nat) :
    task.start (fuel + 3) (({} : Machine).construct (.value .string) (read_all fd 0 "")).1 0 =
      .ok { frames := [⟨.value .string, { v := some (.str "") }, .final⟩]
            trace := [.final_transfer 0 .noop] } := by
  simp [task.start, Machine.construct, run, step, read_all, Machine.setFrame,
    final_suspend, final_awaiter.await_suspend, promise_type.return_value, convert]

theorem read_all_delivers (fd : Int) (ss : List String) (fuel : Nat) :
    ∃ m1 m2 : Machine,
      task.start (fuel + 3) (({} : Machine).construct (.value .string) (read_all fd ss.length "")).1 0
        = .ok m1
      ∧ complete_all (fuel + 4) fd m1 ss = .ok m2
      ∧ m2.out = ss
      ∧ deliveries m2.trace = ss.enum
      ∧ m2.context.outstanding = []
      ∧ task.value m2 0 = .ok (.str (ss.foldl (· ++ ·) "")) := by
  cases ss with
  | nil =>
    refine ⟨_, _, start_read_none fd fuel, rfl, rfl, rfl, rfl, ?_⟩
    simp [task.value, promise_type.value, base_value]
  | cons s ss =>
    obtain ⟨m2, h1, h2, h3, h4, h5⟩ :=
      complete_all_reading fd fuel ss 0 "" "" [] [.submit fd ⟨0, 0⟩] s
    refine ⟨_, m2, start_read_all fd ss.length fuel, h1, ?_, ?_, h4, h5⟩
    · simpa using h2
    · rw [h3]
      simp [deliveries, List.enum]

end TaskAccu

namespace TaskUsingStd

theorem run_invariant_std (Inv : Machine → Option Ctl → Prop)
    (hstep : ∀ m c m1 oc, Inv m (some c) → step m c = .ok (m1, oc) → Inv m1 oc) :
    ∀ n m c m1, Inv m (some c) → run n m c = .ok m1 → Inv m1 none := by
  intro n
  induction n with
  | zero => intro m c m1 _ h; simp [run] at h
  | succ n ih =>
    intro m c m1 hinv h
    rw [run] at h
    split at h
    · simp at h
    · next m2 heq =>
      simp only [Except.ok.injEq] at h
      subst h
      exact hstep _ _ _ _ hinv heq
    · next m2 c2 heq =>
      exact ih _ _ _ (hstep _ _ _ _ hinv heq) h

theorem drive_invariant_std (P : Machine → Prop) (fuel : Nat)
    (hc : ∀ m body, P m → P (m.construct body).1)
    (hs : ∀ m t m1, P m → task.start fuel m t = .ok m1 → P m1)
    (hk : ∀ m line m1, P m → io.complete fuel m line = .ok m1 → P m1) :
    ∀ ops m m1, P m → drive fuel m ops = .ok m1 → P m1 := by
  intro ops
  induction ops with
  | nil => intro m m1 hp h; simp [drive] at h; subst h; exact hp
  | cons op ops ih =>
    intro m m1 hp h
    cases op with
    | construct body => exact ih _ _ (hc _ _ hp) (by simpa [drive] using h)
    | start t =>
      simp only [drive] at h
      split at h
      · next m2 heq => exact ih _ _ (hs _ _ _ hp heq) h
      · simp at h
    | complete line =>
      simp only [drive] at h
      split at h
      · next m2 heq => exact ih _ _ (hk _ _ _ hp heq) h
      · simp at h

/-- What one step does to the slot, the awaiter counter and the trace. -/
theorem step_effect_std (m : Machine) (c : Ctl) (m1 : Machine) (oc : Option Ctl)
    (h : step m c = .ok (m1, oc)) :
    (m1.context = m.context ∧ m1.next_awaiter = m.next_awaiter ∧
      (m1.trace = m.trace ∨ ∃ id hd, m1.trace = m.trace ++ [.final_resume id hd]))
    ∨ (∃ id, m1.context = { completion := some ⟨m.next_awaiter, id⟩ } ∧
        m1.next_awaiter = m.next_awaiter + 1 ∧
        m1.trace = m.trace ++ [.register ⟨m.next_awaiter, id⟩]) := by
  cases c with
  | resume hd =>
    left
    cases hd with
    | noop => simp [step] at h; obtain ⟨rfl, rfl⟩ := h; simp
    | coro id =>
      simp only [step] at h
      split at h
      · simp at h
      · split at h
        · simp at h; obtain ⟨rfl, rfl⟩ := h; simp
        · simp at h; obtain ⟨rfl, rfl⟩ := h; simp
        · simp at h; obtain ⟨rfl, rfl⟩ := h; simp
        · simp [resume_from_task] at h; obtain ⟨rfl, rfl⟩ := h; simp
        · simp at h
  | body id b =>
    simp only [step] at h
    split at h
    · simp at h
    · next f hf =>
      cases b with
      | print s k => left; simp at h; obtain ⟨rfl, rfl⟩ := h; simp
      | await_value v k =>
        left; simp [value_awaiter.await_ready] at h; obtain ⟨rfl, rfl⟩ := h; simp
      | await_read k =>
        right
        simp at h; obtain ⟨rfl, rfl⟩ := h
        exact ⟨id, rfl, rfl, rfl⟩
      | await_task child k =>
        left
        simp only [Machine.construct, nested_awaiter.await_suspend, Machine.setFrame,
          nested_awaiter.await_ready, Bool.false_eq_true, if_false] at h
        split at h
        · simp at h
        · next m3 hd heq =>
          split at heq
          · simp at heq
          · simp at heq h
            obtain ⟨rfl, rfl⟩ := heq
            obtain ⟨rfl, rfl⟩ := h
            simp
      | done =>
        left
        simp [final_suspend, Machine.setFrame] at h; obtain ⟨rfl, rfl⟩ := h; simp
      | throw what =>
        left
        simp [final_suspend, Machine.setFrame] at h; obtain ⟨rfl, rfl⟩ := h; simp

theorem step_retired_std (old : Callback) (t0 : List Event) (m : Machine) (c : Ctl) (m1 : Machine)
    (oc : Option Ctl) (hinv : m.retired old t0) (h : step m c = .ok (m1, oc)) :
    m1.retired old t0 := by
  obtain ⟨hlt, hne, s, hs, hno⟩ := hinv
  rcases step_effect_std m c m1 oc h with ⟨hc, hn, ht⟩ | ⟨id, hc, hn, ht⟩
  · refine ⟨by omega, by simpa [hc] using hne, ?_⟩
    rcases ht with ht | ⟨id, hd, ht⟩
    · exact ⟨s, by rw [ht, hs], hno⟩
    · refine ⟨s ++ [.final_resume id hd], by rw [ht, hs, List.append_assoc], ?_⟩
      intro v hmem
      simp at hmem
      exact hno v hmem
  · refine ⟨by omega, ?_, ?_⟩
    · rw [hc]
      intro heq
      simp at heq
      rw [← heq] at hlt
      simp at hlt
    · refine ⟨s ++ [.register ⟨m.next_awaiter, id⟩], by rw [ht, hs, List.append_assoc], ?_⟩
      intro v hmem
      simp at hmem
      exact hno v hmem

theorem run_retired_std (old : Callback) (t0 : List Event) (n : Nat) (m : Machine) (c : Ctl)
    (m1 : Machine) (hinv : m.retired old t0) (h : run n m c = .ok m1) : m1.retired old t0 :=
  run_invariant_std (fun m _ => m.retired old t0) (fun _ _ _ _ hi hs => step_retired_std _ _ _ _ _ _ hi hs)
    n m c m1 hinv h

theorem complete_retired_std (old : Callback) (t0 : List Event) (fuel : Nat) (m : Machine)
    (line : String) (m1 : Machine)
    (hinv : m.retired old t0) (h : io.complete fuel m line = .ok m1) : m1.retired old t0 := by
  simp only [io.complete] at h
  split at h
  · simp at h
  · next cb hcb =>
    obtain ⟨hlt, hne, s, hs, hno⟩ := hinv
    have hcbne : cb ≠ old := by
      intro heq; rw [heq] at hcb; exact hne hcb
    simp only [Callback.call] at h
    split at h
    · simp at h
    · split at h
      · split at h
        · refine run_retired_std _ _ _ _ _ _ ?_ h
          simp only [Machine.retired, Machine.setFrame]
          refine ⟨hlt, hne, s ++ [.invoke cb line], by rw [hs, List.append_assoc], ?_⟩
          intro v hmem
          simp at hmem
          rcases hmem with hmem | ⟨h2, _⟩
          · exact hno v hmem
          · exact hcbne h2.symm
        · simp at h
      · simp at h

theorem drive_retired_std (old : Callback) (t0 : List Event) (fuel : Nat) (ops : List Op)
    (m m1 : Machine) (hinv : m.retired old t0) (h : drive fuel m ops = .ok m1) :
    m1.retired old t0 :=
  drive_invariant_std (fun m => m.retired old t0) fuel
    (fun _ _ hp => hp)
    (fun _ _ _ hp hs => run_retired_std _ _ _ _ _ _ hp hs)
    (fun _ _ _ hp hs => complete_retired_std _ _ _ _ _ _ hp hs) ops m m1 hinv h

end TaskUsingStd

namespace TaskUsingStd

theorem lt_of_lookup_std {l : List Frame} {id : Nat} {f : Frame} (h : l[id]? = some f) :
    id < l.length := by
  by_contra hge
  have := List.getElem?_eq_none (l := l) (n := id) (by omega)
  simp [this] at h

/-- C8 on the code: in task-using-std.cpp, when a frame awaits a task whose
body throws, the exception is stored in the child's promise and the parent is
resumed with the rest `k` of its body: `nested_awaiter::await_resume` does not
look at the child's `error`, and the parent's own `error` stays as it was.  A
parent that writes `after` behind the `co_await` does write it, and completes
without an error. -/
theorem child_exception_is_not_rethrown (m : Machine) (id : Nat) (fr : Frame) (what : String)
    (k : Body) (fuel : Nat) (hf : m.frames[id]? = some fr) :
    run (fuel + 4) m (.body id (.await_task (.throw what) k)) =
        run fuel
          { m with
            frames := (m.frames ++
                [(⟨{ error := some (.runtime_error what), continuation := .coro id },
                  .final⟩ : Frame)]).set id { fr with point := .task m.frames.length k }
            trace := m.trace ++ [.final_resume m.frames.length (.coro id)] }
          (.body id k)
    ∧ (task.start (fuel + 8)
          (({} : Machine).construct (.await_task (.throw what) (.print "after" .done))).1 0).map
        (fun m1 => (m1.out, m1.frames.map (fun f => (f.promise.error, f.point.is_final))))
        = .ok (["after"], [(none, true), (some (.runtime_error what), true)]) := by
  have hid := lt_of_lookup_std hf
  have hne : id ≠ m.frames.length := by omega
  have hne2 : m.frames.length ≠ id := by omega
  refine ⟨?_, rfl⟩
  simp [run, step, hf, Machine.construct, Machine.setFrame, nested_awaiter.await_suspend,
    resume_from_task, final_suspend, promise_type.unhandled_exception, List.getElem?_set, hid,
    hne, hne2,
    List.getElem?_append_left, List.getElem?_append_right]

theorem child_exception_is_not_rethrown_witness :
    (task.start 8
          (({} : Machine).construct (.await_task (.throw "E") (.print "after" .done))).1 0).map
        (fun m1 => (m1.out, m1.frames.map (fun f => (f.promise.error, f.point.is_final))))
        = .ok (["after"], [(none, true), (some (.runtime_error "E"), true)]) :=
  (child_exception_is_not_rethrown { frames := [⟨{}, .initial .done⟩] } 0 ⟨{}, .initial .done⟩
    "E" .done 0 rfl).2

/-- C9 on the code: in task-using-std.cpp `io::complete` calls `completion`
without asking whether a read is pending and without removing the callback.
With no read registered the call throws `std::bad_function_call` instead of
doing nothing; and after a `complete` that resumed a task which registers no
further read, the callback is still in the slot, so one more `complete` calls
it a second time, when its awaiter is gone. -/
theorem complete_is_neither_guarded_nor_single_shot :
    io.complete 1 {} "1st" = .error (.exception .bad_function_call)
    ∧ (drive 4 {} [.construct (.await_read fun _ => .done), .start 0, .complete "a"]).map
        (fun m => (m.context.completion, m.trace))
        = .ok (some ⟨0, 0⟩, [.register ⟨0, 0⟩, .invoke ⟨0, 0⟩ "a", .final_resume 0 .noop])
    ∧ drive 4 {} [.construct (.await_read fun _ => .done), .start 0, .complete "a",
        .complete "b"] = .error .dangling_awaiter :=
  ⟨rfl, rfl, rfl⟩

end TaskUsingStd

namespace TaskUsingStd

theorem step_slot_ok (m : Machine) (c : Ctl) (m1 : Machine) (oc : Option Ctl)
    (hinv : m.slot_ok) (h : step m c = .ok (m1, oc)) : m1.slot_ok := by
  rcases step_effect_std m c m1 oc h with ⟨hc, hn, _⟩ | ⟨id, hc, hn, _⟩
  · simpa [Machine.slot_ok, hc, hn] using hinv
  · intro cb hcb
    rw [hc] at hcb
    simp at hcb
    subst hcb
    simp [hn]

theorem run_slot_ok (n : Nat) (m : Machine) (c : Ctl) (m1 : Machine)
    (hinv : m.slot_ok) (h : run n m c = .ok m1) : m1.slot_ok :=
  run_invariant_std (fun m _ => m.slot_ok) (fun _ _ _ _ hi hs => step_slot_ok _ _ _ _ hi hs)
    n m c m1 hinv h

theorem complete_slot_ok (fuel : Nat) (m : Machine) (line : String) (m1 : Machine)
    (hinv : m.slot_ok) (h : io.complete fuel m line = .ok m1) : m1.slot_ok := by
  simp only [io.complete] at h
  split at h
  · simp at h
  · simp only [Callback.call] at h
    split at h
    · simp at h
    · split at h
      · split at h
        · refine run_slot_ok _ _ _ _ ?_ h
          simpa [Machine.slot_ok, Machine.setFrame] using hinv
        · simp at h
      · simp at h

theorem drive_slot_ok (fuel : Nat) (ops : List Op) (m m1 : Machine)
    (hinv : m.slot_ok) (h : drive fuel m ops = .ok m1) : m1.slot_ok :=
  drive_invariant_std (fun m => m.slot_ok) fuel
    (fun _ _ hp => hp)
    (fun _ _ _ hp hs => run_slot_ok _ _ _ _ hp hs)
    (fun _ _ _ hp hs => complete_slot_ok _ _ _ _ hp hs) ops m m1 hinv h

/-- A read registered while callback `old` is in the slot takes the slot, and
`old` is never called afterwards. -/
theorem register_replaces (m : Machine) (id : Nat) (fr : Frame) (k : String → Body)
    (old : Callback) (hok : m.slot_ok) (hf : m.frames[id]? = some fr)
    (hold : m.context.completion = some old) :
    ∃ m1, step m (.body id (.await_read k)) = .ok (m1, none)
      ∧ m1.context.completion = some ⟨m.next_awaiter, id⟩
      ∧ (⟨m.next_awaiter, id⟩ : Callback) ≠ old
      ∧ (∀ fuel line, io.complete fuel m1 line =
          Callback.call fuel { m1 with trace := m1.trace ++ [.invoke ⟨m.next_awaiter, id⟩ line] }
            ⟨m.next_awaiter, id⟩ line)
      ∧ (∀ fuel ops m2, drive fuel m1 ops = .ok m2 →
          ∃ s, m2.trace = m1.trace ++ s ∧ ∀ v, Event.invoke old v ∉ s) := by
  have hlt := hok old hold
  have hne : (⟨m.next_awaiter, id⟩ : Callback) ≠ old := by
    intro heq
    rw [← heq] at hlt
    simp at hlt
  have hstep : step m (.body id (.await_read k)) = .ok
      (async_read.await_suspend
        (({ m with next_awaiter := m.next_awaiter + 1 } : Machine).setFrame id
          { fr with point := .read { id := m.next_awaiter } k })
        { id := m.next_awaiter } id, none) := by
    simp [step, hf]
  refine ⟨_, hstep, rfl, hne, ?_, ?_⟩
  · intro fuel line
    simp [io.complete, async_read.await_suspend]
  · intro fuel ops m2 hd
    refine (drive_retired_std old _ fuel ops _ m2 ?_ hd).2.2
    refine ⟨?_, ?_, [], by simp, by simp⟩
    · simp only [async_read.await_suspend, Machine.setFrame]; omega
    · simp only [async_read.await_suspend, Machine.setFrame]
      intro heq
      simp at heq
      exact hne heq

end TaskUsingStd

namespace TaskAccu

/-- A read registered on `fd` while callback `old` is pending for `fd` takes
the entry of `fd`, and `old` is never called afterwards. -/
theorem submit_replaces (m : Machine) (id : Nat) (fr : Frame) (fd : Int) (k : String → Body)
    (old : Callback) (hok : m.registry_ok) (hf : m.frames[id]? = some fr)
    (hold : m.context.find fd = some old) :
    ∃ m1, step m (.body id (.await_read fd k)) = .ok (m1, none)
      ∧ m1.context.find fd = some ⟨m.next_awaiter, id⟩
      ∧ (⟨m.next_awaiter, id⟩ : Callback) ≠ old
      ∧ (∀ fd2, (m1.context.outstanding.filter (fun e => e.1 == fd2)).length ≤ 1)
      ∧ (∀ fuel v, io.complete fuel m1 fd v =
          Callback.call fuel
            { m1 with context := m1.context.erase fd
                      trace := m1.trace ++ [.invoke fd ⟨m.next_awaiter, id⟩ v] }
            ⟨m.next_awaiter, id⟩ v)
      ∧ (∀ fuel ops m2, drive fuel m1 ops = .ok m2 →
          (∃ s, m2.trace = m1.trace ++ s ∧ ∀ fd2 v, Event.invoke fd2 old v ∉ s)
          ∧ ∀ fd2, (m2.context.outstanding.filter (fun e => e.1 == fd2)).length ≤ 1) := by
  have hmem := find_some_mem _ _ _ hold
  have hlt : old.this < m.next_awaiter := hok.2.1 _ hmem
  have hne : (⟨m.next_awaiter, id⟩ : Callback) ≠ old := by
    intro heq
    rw [← heq] at hlt
    simp at hlt
  have hstep : step m (.body id (.await_read fd k)) = .ok
      (async_read.await_suspend
        (({ m with next_awaiter := m.next_awaiter + 1 } : Machine).setFrame id
          { fr with point := .read { id := m.next_awaiter, fd := fd } k })
        { id := m.next_awaiter, fd := fd } id, none) := by
    simp [step, hf]
  have hok1 := step_registry_ok _ _ _ _ hok hstep
  refine ⟨_, hstep, ?_, hne, ?_, ?_, ?_⟩
  · simp [async_read.await_suspend, Machine.setFrame, submit_find]
  · intro fd2
    exact nodup_filter_le_one _ _ hok1.1
  · intro fuel v
    simp [io.complete, async_read.await_suspend, Machine.setFrame, submit_find]
  · intro fuel ops m2 hd
    refine ⟨(drive_retired old _ fuel ops _ m2 ?_ hd).2.2, ?_⟩
    · refine ⟨?_, ?_, [], by simp, by simp⟩
      · simp only [async_read.await_suspend, Machine.setFrame]; omega
      · intro e he
        simp only [async_read.await_suspend, Machine.setFrame, io.submit, List.mem_cons] at he
        rcases he with rfl | he
        · exact hne
        · intro heq
          obtain ⟨he1, he2⟩ := mem_erase _ _ _ he
          have hinj := List.inj_on_of_nodup_map hok.2.2 he1 hmem (by simp [heq])
          rw [hinj] at he2
          exact he2 rfl
    · intro fd2
      exact nodup_filter_le_one _ _ (drive_registry_ok fuel ops _ m2 hok1 hd).1

end TaskAccu

namespace CoAwait

/-- C2: in task-accu.cpp a `complete(fd, s)` that finds the callback of a
suspended `co_await async_read` stores `s` in that awaiter and resumes the
frame with exactly `s` as the value of the `co_await`; so a task that awaits
`ss.length` reads on `fd` one after another and is fed the strings `ss` by as
many `complete` calls receives them one per call and in order (it writes
exactly `ss`, awaiter number `i` is called with the `i`-th string, nothing
stays registered) and returns their concatenation; the task returning one read
has `value() == s`, the task concatenating two reads has `value() == s1 ++ s2`;
and `main` of task-using-std.cpp writes `first=1st`, `second=2nd`, `third=3rd`
in this order and then `f done`. -/
theorem reads_are_delivered_in_order (fd : Int) (ss : List String) (fuel : Nat) :
    (∀ (m : TaskAccu.Machine) (cb : TaskAccu.Callback) (f : TaskAccu.Frame)
        (aw : TaskAccu.async_read) (k : String → TaskAccu.Body) (s : String),
        m.context.find fd = some cb → m.frames[cb.h]? = some f → f.point = .read aw k →
        aw.id = cb.this →
        TaskAccu.io.complete (fuel + 1) m fd s =
          TaskAccu.run fuel
            { m with
              frames := m.frames.set cb.h { f with point := .read { aw with value := s } k }
              context := m.context.erase fd
              trace := m.trace ++ [.invoke fd cb s] }
            (.body cb.h (k s))
        ∧ TaskAccu.async_read.await_resume { aw with value := s } = s)
    ∧ (∃ m1 m2 : TaskAccu.Machine,
        TaskAccu.task.start (fuel + 3)
            (({} : TaskAccu.Machine).construct (.value .string) (TaskAccu.read_all fd ss.length "")).1 0
          = .ok m1
        ∧ TaskAccu.complete_all (fuel + 4) fd m1 ss = .ok m2
        ∧ m2.out = ss
        ∧ TaskAccu.deliveries m2.trace = ss.enum
        ∧ m2.context.outstanding = []
        ∧ TaskAccu.task.value m2 0 = .ok (.str (ss.foldl (· ++ ·) "")))
    ∧ (∀ s : String,
        (do
          let m1 ← TaskAccu.task.start (fuel + 2)
            (({} : TaskAccu.Machine).construct (.value .string) TaskAccu.g).1 0
          let m2 ← TaskAccu.io.complete (fuel + 4) m1 1 s
          TaskAccu.task.value m2 0) = .ok (.str s))
    ∧ (∀ s1 s2 : String,
        (do
          let m1 ← TaskAccu.task.start (fuel + 2)
            (({} : TaskAccu.Machine).construct (.value .string) TaskAccu.two_reads).1 0
          let m2 ← TaskAccu.io.complete (fuel + 2) m1 1 s1
          let m3 ← TaskAccu.io.complete (fuel + 4) m2 1 s2
          TaskAccu.task.value m3 0) = .ok (.str (s1 ++ s2)))
    ∧ TaskUsingStd.main (fuel + 8) = .ok ["--- after calling f\n", "17", "\n",
        "first=", "1st", "\n", "second=", "2nd", "\n", "third=", "3rd", "\n", "f done\n"] := by
  refine ⟨?_, TaskAccu.read_all_delivers fd ss fuel, fun _ => rfl, fun _ _ => rfl, rfl⟩
  intro m cb f aw k s hfind hf hp hid
  have hlt := TaskAccu.lt_of_lookup hf
  refine ⟨?_, rfl⟩
  simp [TaskAccu.io.complete, hfind, TaskAccu.Callback.call, hf, hp, hid, TaskAccu.run,
    TaskAccu.step, TaskAccu.Machine.setFrame, List.getElem?_set, hlt,
    TaskAccu.async_read.await_resume]

theorem reads_are_delivered_in_order_witness :
    TaskAccu.async_read.await_resume
      { ({ id := 0, fd := 1 } : TaskAccu.async_read) with value := "hello" } = "hello" :=
  ((reads_are_delivered_in_order 1 ["hello"] 0).1
    { frames := [⟨.value .string, {}, .read { id := 0, fd := 1 } (fun s => .co_return (.str s))⟩]
      context := { outstanding := [(1, ⟨0, 0⟩)] }
      next_awaiter := 1 }
    ⟨0, 0⟩ ⟨.value .string, {}, .read { id := 0, fd := 1 } (fun s => .co_return (.str s))⟩
    { id := 0, fd := 1 } (fun s => .co_return (.str s)) "hello" rfl rfl rfl rfl).2

/-- C10: in both variants a read registered while another callback `old` is
pending for the same handle (task-accu.cpp) or in the slot (task-using-std.cpp)
replaces it: the registry then holds the new callback for that handle, the
next `complete` calls the new callback, and whatever the driver does
afterwards `old` is never called again; the registry holds one callback per
handle at most, there and after every sequence of driver calls. -/
theorem newer_read_replaces_older_callback
    (m : TaskAccu.Machine) (id : Nat) (fr : TaskAccu.Frame) (fd : Int)
    (k : String → TaskAccu.Body) (old : TaskAccu.Callback)
    (hok : m.registry_ok) (hf : m.frames[id]? = some fr) (hold : m.context.find fd = some old)
    (n : TaskUsingStd.Machine) (id2 : Nat) (fr2 : TaskUsingStd.Frame)
    (k2 : String → TaskUsingStd.Body) (old2 : TaskUsingStd.Callback)
    (hok2 : n.slot_ok) (hf2 : n.frames[id2]? = some fr2)
    (hold2 : n.context.completion = some old2) :
    (∃ m1, TaskAccu.step m (.body id (.await_read fd k)) = .ok (m1, none)
      ∧ m1.context.find fd = some ⟨m.next_awaiter, id⟩
      ∧ (⟨m.next_awaiter, id⟩ : TaskAccu.Callback) ≠ old
      ∧ (∀ fd2, (m1.context.outstanding.filter (fun e => e.1 == fd2)).length ≤ 1)
      ∧ (∀ fuel v, TaskAccu.io.complete fuel m1 fd v =
          TaskAccu.Callback.call fuel
            { m1 with context := m1.context.erase fd
                      trace := m1.trace ++ [.invoke fd ⟨m.next_awaiter, id⟩ v] }
            ⟨m.next_awaiter, id⟩ v)
      ∧ (∀ fuel ops m2, TaskAccu.drive fuel m1 ops = .ok m2 →
          (∃ s, m2.trace = m1.trace ++ s ∧ ∀ fd2 v, TaskAccu.Event.invoke fd2 old v ∉ s)
          ∧ ∀ fd2, (m2.context.outstanding.filter (fun e => e.1 == fd2)).length ≤ 1))
    ∧ (∃ n1, TaskUsingStd.step n (.body id2 (.await_read k2)) = .ok (n1, none)
      ∧ n1.context.completion = some ⟨n.next_awaiter, id2⟩
      ∧ (⟨n.next_awaiter, id2⟩ : TaskUsingStd.Callback) ≠ old2
      ∧ (∀ fuel line, TaskUsingStd.io.complete fuel n1 line =
          TaskUsingStd.Callback.call fuel
            { n1 with trace := n1.trace ++ [.invoke ⟨n.next_awaiter, id2⟩ line] }
            ⟨n.next_awaiter, id2⟩ line)
      ∧ (∀ fuel ops n2, TaskUsingStd.drive fuel n1 ops = .ok n2 →
          ∃ s, n2.trace = n1.trace ++ s ∧ ∀ v, TaskUsingStd.Event.invoke old2 v ∉ s))
    ∧ (∀ fuel ops m0, TaskAccu.drive fuel {} ops = .ok m0 →
        m0.registry_ok
        ∧ ∀ fd2, (m0.context.outstanding.filter (fun e => e.1 == fd2)).length ≤ 1)
    ∧ (∀ fuel ops n0, TaskUsingStd.drive fuel {} ops = .ok n0 → n0.slot_ok) := by
  refine ⟨TaskAccu.submit_replaces m id fr fd k old hok hf hold,
    TaskUsingStd.register_replaces n id2 fr2 k2 old2 hok2 hf2 hold2, ?_, ?_⟩
  · intro fuel ops m0 hd
    have h0 : ({} : TaskAccu.Machine).registry_ok := by simp [TaskAccu.Machine.registry_ok]
    have := TaskAccu.drive_registry_ok fuel ops {} m0 h0 hd
    exact ⟨this, fun fd2 => TaskAccu.nodup_filter_le_one _ _ this.1⟩
  · intro fuel ops n0 hd
    have h0 : ({} : TaskUsingStd.Machine).slot_ok := by simp [TaskUsingStd.Machine.slot_ok]
    exact TaskUsingStd.drive_slot_ok fuel ops {} n0 h0 hd

theorem newer_read_replaces_older_callback_witness :
    (⟨1, 1⟩ : TaskAccu.Callback) ≠ ⟨0, 0⟩ ∧ (⟨1, 1⟩ : TaskUsingStd.Callback) ≠ ⟨0, 0⟩ :=
  have h := newer_read_replaces_older_callback
    { frames := [⟨.value .string, {}, .read { id := 0, fd := 1 } (fun s => .co_return (.str s))⟩,
                 ⟨.value .string, {}, .initial TaskAccu.g⟩]
      context := { outstanding := [(1, ⟨0, 0⟩)] }
      trace := [.submit 1 ⟨0, 0⟩]
      next_awaiter := 1 }
    1 ⟨.value .string, {}, .initial TaskAccu.g⟩ 1 (fun s => .co_return (.str s)) ⟨0, 0⟩
    (by simp [TaskAccu.Machine.registry_ok]) rfl rfl
    { frames := [⟨{}, .read { id := 0 } (fun s => .print s .done)⟩,
                 ⟨{}, .initial TaskUsingStd.g⟩]
      context := { completion := some ⟨0, 0⟩ }
      trace := [.register ⟨0, 0⟩]
      next_awaiter := 1 }
    1 ⟨{}, .initial TaskUsingStd.g⟩ (fun s => .print s .done) ⟨0, 0⟩
    (by simp [TaskUsingStd.Machine.slot_ok]) rfl rfl
  ⟨h.1.choose_spec.2.2.1, h.2.1.choose_spec.2.2.1⟩

end CoAwait
